import Mathlib

/-!
Verification of the cez-distribution-hdo tariff schedule engine and its
client/service layers.

Shallow embedding conventions:
* instants are integers, counted in seconds on a single absolute timeline
  (the configured timezone is modelled as a fixed offset; the spec lists
  DST fold/gap behaviour as an explicit open question);
* a calendar date is its day number since 1970-01-01, so midnight of day
  `d` is the instant `86400 * d`;
* Python exceptions become `Except` values, `None` becomes `Option`.

The schedule engine itself (`tariffs.py`) is not part of the source tree;
its definitions below are modelled from the spec (sections 3, 4.1-4.4) and
are marked as such.  `client.py` and `service.py` are embedded from the
source.
-/

namespace CezHdo

/-- JSON values as handed by the HTTP layer to response parsing. -/
inductive Json where
  | null : Json
  | bool (b : Bool) : Json
  | num (n : Int) : Json
  | str (s : String) : Json
  | arr (items : List Json) : Json
  | obj (fields : List (String × Json)) : Json

/-- Dictionary lookup on a JSON object's field list (first binding wins). -/
def jsonGet (fields : List (String × Json)) (key : String) : Option Json :=
  match fields.find? (fun kv => kv.1 == key) with
  | some kv => some kv.2
  | none => none

/-- Typed errors of the package (exceptions.py) plus Python's KeyError,
raised by `TariffService.snapshot` for unknown signals. -/
inductive PyError where
  | invalidRequestError (msg : String) : PyError
  | invalidResponseError (msg : String) : PyError
  | apiError (msg : String) : PyError
  | httpRequestError (msg : String) : PyError
  | keyError (msg : String) : PyError
deriving DecidableEq

/-- One raw day entry of the API response (models.SignalEntry): signal name,
display-only day name, date as a DD.MM.YYYY string and the raw ranges text. -/
structure SignalEntry where
  signal : String
  day_name : String
  date_str : String
  times_raw : String
deriving DecidableEq

/-- models.SignalsData: the parsed `data` object of a response. -/
structure SignalsData where
  signals : List SignalEntry
  partner : Option String
  raw : Json

/-- models.SignalsResponse: the parsed whole response. -/
structure SignalsResponse where
  data : SignalsData
  status_code : Int
  flash_messages : Json
  raw : Json

def HTTP_STATUS_OK : Int := 200

def KEY_NAME_EAN : String := "ean"

def KEY_NAME_SN : String := "sn"

def KEY_NAME_PLACE : String := "place"

/-- Python str.strip() on a character list: drop whitespace at both ends. -/
def trimList (l : List Char) : List Char :=
  ((l.dropWhile Char.isWhitespace).reverse.dropWhile Char.isWhitespace).reverse

/-- Python str.strip() on a string. -/
def strTrim (s : String) : String := String.mk (trimList s.data)

/-- str.split(sep) on a character list: cut at every separator occurrence,
keeping empty pieces. -/
def splitOnCharAux (sep : Char) : List Char → List Char → List (List Char)
  | [], acc => [acc.reverse]
  | c :: cs, acc =>
    if c = sep then acc.reverse :: splitOnCharAux sep cs []
    else splitOnCharAux sep cs (c :: acc)

/-- str.split(sep) on a string. -/
def strSplit (s : String) (sep : Char) : List String :=
  (splitOnCharAux sep s.data []).map String.mk

/-- Decimal value of a digit run (None on a non-digit). -/
def digitsToNatAux : List Char → Nat → Option Nat
  | [], acc => some acc
  | c :: cs, acc =>
    if c.isDigit then digitsToNatAux cs (acc * 10 + (c.toNat - 48)) else none

/-- int(s) for a non-empty all-digit string, None otherwise. -/
def strToNat? (s : String) : Option Nat :=
  match s.data with
  | [] => none
  | l => digitsToNatAux l 0

/-- The nested `norm` helper of build_payload: strip the input and convert
empty results (and None) to None. -/
def norm (v : Option String) : Option String :=
  match v with
  | none => none
  | some s => let s2 := strTrim s; if s2 = "" then none else some s2

/-- CezHdoClient.build_payload: strip each identifier, treat None and blank
values as absent, keep the keys of the remaining values, and fail when all
three identifiers are absent after normalization. -/
def build_payload (ean sn place : Option String) : Except PyError (List (String × String)) :=
  let ean_n := norm ean
  let sn_n := norm sn
  let place_n := norm place
  let payload : List (String × String) :=
    (match ean_n with | some v => [(KEY_NAME_EAN, v)] | none => []) ++
    (match sn_n with | some v => [(KEY_NAME_SN, v)] | none => []) ++
    (match place_n with | some v => [(KEY_NAME_PLACE, v)] | none => [])
  if payload = [] then
    .error (.invalidRequestError
      "At least one of \x27ean\x27, \x27sn\x27, or \x27place\x27 must be provided.")
  else
    .ok payload

/-- The per-field test of the validation loop: a field value passes exactly
when it is a non-empty (truthy) string — isinstance(x, str) and x. -/
def asNonemptyStr (j : Option Json) : Option String :=
  match j with
  | some (.str s) => if s = "" then none else some s
  | _ => none

/-- One signals[i] item's field validation: all four of signal, den, datum and
casy must be non-empty strings. -/
def itemFieldsOk (fields : List (String × Json)) : Option SignalEntry :=
  match asNonemptyStr (jsonGet fields "signal") with
  | none => none
  | some sg =>
    match asNonemptyStr (jsonGet fields "den") with
    | none => none
    | some dn =>
      match asNonemptyStr (jsonGet fields "datum") with
      | none => none
      | some ds =>
        match asNonemptyStr (jsonGet fields "casy") with
        | none => none
        | some cyv => some (SignalEntry.mk sg dn ds cyv)

/-- Validation of one signals[i] item: it must be an object whose four fields
are non-empty strings. -/
def parseOneItem (i : Nat) (item : Json) : Except PyError SignalEntry :=
  match item with
  | .obj fields =>
    match itemFieldsOk fields with
    | some entry => .ok entry
    | none =>
      .error (.invalidResponseError
        ("signals[" ++ toString i ++ "] missing required string fields"))
  | _ =>
    .error (.invalidResponseError ("signals[" ++ toString i ++ "] must be an object"))

/-- The per-item validation loop of CezHdoClient._parse_response. -/
def parseSignalItems : Nat → List Json → Except PyError (List SignalEntry)
  | _, [] => .ok []
  | i, item :: rest =>
    match parseOneItem i item with
    | .error e => .error e
    | .ok entry =>
      match parseSignalItems (i + 1) rest with
      | .error e => .error e
      | .ok tail => .ok (entry :: tail)

/-- CezHdoClient._parse_response: validate the response shape (statusCode,
data object, signals list, per-item fields) and build a SignalsResponse. -/
def parse_response (raw : Json) : Except PyError SignalsResponse :=
  match raw with
  | .obj rfields =>
    match jsonGet rfields "statusCode" with
    | some (.num status_code) =>
      match jsonGet rfields "data" with
      | some (.obj dfields) =>
        if status_code ≠ HTTP_STATUS_OK then
          .error (.apiError ("API returned statusCode=" ++ toString status_code))
        else
          match jsonGet dfields "signals" with
          | some (.arr signals) =>
            match parseSignalItems 0 signals with
            | .error e => .error e
            | .ok parsed_signals =>
              let partner : Option String :=
                match jsonGet dfields "partner" with
                | some (.str p) => some p
                | _ => none
              .ok { data := { signals := parsed_signals, partner := partner, raw := .obj dfields }
                    status_code := status_code
                    flash_messages := (jsonGet rfields "flashMessages").getD (.arr [])
                    raw := raw }
          | _ => .error (.invalidResponseError "Missing or invalid \x27data.signals\x27 list.")
      | _ => .error (.invalidResponseError "Missing or invalid \x27data\x27 object.")
    | _ => .error (.invalidResponseError "Missing or invalid \x27statusCode\x27.")
  | _ => .error (.invalidResponseError "Response JSON must be an object.")

/-- const.TARIFF_LOW: the low ("NT") tariff marker. -/
def TARIFF_LOW : String := "NT"

/-- const.TARIFF_HIGH: the high ("VT") tariff marker. -/
def TARIFF_HIGH : String := "VT"

/-- Modelled from the spec: tariffs.TariffWindow (section 3) — one half-open
interval `[start, stop)` with its tariff kind; `start < stop` always. -/
structure TariffWindow where
  start : Int
  stop : Int
  kind : String
deriving DecidableEq

/-- Modelled from the spec: tariffs.SignalSchedule (section 3) — one signal's
ordered, gapless, alternating window sequence over its horizon. -/
structure SignalSchedule where
  signal : String
  windows : List TariffWindow
  horizon_start : Int
  horizon_end : Int
deriving DecidableEq

/-- Modelled from the spec (4.3): the unique window with start ≤ now < end,
or absent when now is outside the horizon. -/
def SignalSchedule.current_window (sch : SignalSchedule) (now : Int) : Option TariffWindow :=
  sch.windows.find? (fun w => decide (w.start ≤ now ∧ now < w.stop))

/-- Modelled from the spec (4.3): kind of the current window, absent outside
the horizon. -/
def SignalSchedule.current_tariff (sch : SignalSchedule) (now : Int) : Option String :=
  (sch.current_window now).map (fun w => w.kind)

/-- Modelled from the spec (4.3): end instant of the current window. -/
def SignalSchedule.next_switch (sch : SignalSchedule) (now : Int) : Option Int :=
  (sch.current_window now).map (fun w => w.stop)

/-- Modelled from the spec (4.3): time left until the next switch. -/
def SignalSchedule.remaining (sch : SignalSchedule) (now : Int) : Option Int :=
  (sch.next_switch now).map (fun t => t - now)

/-- Modelled from the spec (4.3): scan forward to the window containing now,
then search the strictly later windows for the first one of the wanted kind. -/
def nextOfKindAux (kind : String) (now : Int) : List TariffWindow → Option TariffWindow
  | [] => none
  | w :: ws =>
    if w.start ≤ now ∧ now < w.stop then ws.find? (fun w2 => w2.kind == kind)
    else nextOfKindAux kind now ws

/-- Modelled from the spec (4.3): the first window of the given kind among the
windows strictly after the one containing now; never the current window. -/
def SignalSchedule.next_window_of_kind (sch : SignalSchedule) (now : Int) (kind : String) :
    Option TariffWindow :=
  nextOfKindAux kind now sch.windows

/-- Modelled from the spec: next low-tariff window strictly after now's window. -/
def SignalSchedule.next_nt_window (sch : SignalSchedule) (now : Int) : Option TariffWindow :=
  sch.next_window_of_kind now TARIFF_LOW

/-- Modelled from the spec: next high-tariff window strictly after now's window. -/
def SignalSchedule.next_vt_window (sch : SignalSchedule) (now : Int) : Option TariffWindow :=
  sch.next_window_of_kind now TARIFF_HIGH

/-- Modelled from the spec (4.1): parse one HH:MM time into seconds from
midnight; 24:00 (= 86400) is allowed, minutes must be below 60. -/
def parseHM (s : String) : Except String Int :=
  match strSplit s ':' with
  | [hs, ms] =>
    match strToNat? hs with
    | none => .error ("malformed time in segment " ++ s)
    | some h =>
      match strToNat? ms with
      | none => .error ("malformed time in segment " ++ s)
      | some m =>
        if m ≤ 59 ∧ 3600 * h + 60 * m ≤ 86400 then .ok (3600 * (h : Int) + 60 * (m : Int))
        else .error ("time out of range in segment " ++ s)
  | _ => .error ("malformed segment " ++ s)

/-- Modelled from the spec (4.1): parse one HH:MM-HH:MM segment of day `day`
into an absolute half-open interval; start must be strictly before end. -/
def parseSegment (day : Int) (seg : String) : Except String (Int × Int) :=
  match strSplit seg '-' with
  | [a, b] =>
    match parseHM a with
    | .error e => .error e
    | .ok t1 =>
      match parseHM b with
      | .error e => .error e
      | .ok t2 =>
        if t1 < t2 then .ok (86400 * day + t1, 86400 * day + t2)
        else .error ("start not before end in segment " ++ seg)
  | _ => .error ("malformed segment " ++ seg)

/-- Modelled from the spec (4.1): parse every segment of one day, in order. -/
def parseSegments (day : Int) : List String → Except String (List (Int × Int))
  | [] => .ok []
  | seg :: rest =>
    match parseSegment day seg with
    | .error e => .error e
    | .ok iv =>
      match parseSegments day rest with
      | .error e => .error e
      | .ok tail => .ok (iv :: tail)

/-- Modelled from the spec (4.1): tariffs parse_ranges — split the ranges text
on ";", trim, drop empty segments; blank text is a legal all-HIGH day. -/
def parse_ranges (text : String) (day : Int) : Except String (List (Int × Int)) :=
  if strTrim text = "" then .ok []
  else
    let segments := ((strSplit text ';').map strTrim).filter (fun s => s ≠ "")
    if segments = [] then .error ("no valid range segment in " ++ text)
    else parseSegments day segments

/-- Day number since 1970-01-01 of a Gregorian date (floor-division form of
the standard civil-calendar conversion). -/
def days_from_civil (y m d : Int) : Int :=
  let y2 := if m ≤ 2 then y - 1 else y
  let era := y2 / 400
  let yoe := y2 - era * 400
  let mp := (m + 9) % 12
  let doy := (153 * mp + 2) / 5 + d - 1
  let doe := yoe * 365 + yoe / 4 - yoe / 100 + doy
  era * 146097 + doe - 719468

/-- Modelled from the spec (section 6): a calendar date parsed from a
DD.MM.YYYY-shaped string, as its day number. -/
def parse_date (s : String) : Except String Int :=
  match strSplit s '.' with
  | [ds, ms, ys] =>
    match strToNat? ds with
    | none => .error ("invalid date " ++ s)
    | some d =>
      match strToNat? ms with
      | none => .error ("invalid date " ++ s)
      | some m =>
        match strToNat? ys with
        | none => .error ("invalid date " ++ s)
        | some y =>
          if 1 ≤ d ∧ d ≤ 31 ∧ 1 ≤ m ∧ m ≤ 12 then .ok (days_from_civil y m d)
          else .error ("invalid date " ++ s)
  | _ => .error ("invalid date " ++ s)

/-- Modelled from the spec (4.2 step 3): clip a day's intervals to the
horizon, dropping anything that becomes empty. -/
def clipList (hs he : Int) (l : List (Int × Int)) : List (Int × Int) :=
  l.filterMap (fun iv =>
    let a := max iv.1 hs
    let b := min iv.2 he
    if a < b then some (a, b) else none)

/-- The walk of the merge step, carrying the interval grown so far: fuse the
next interval into it exactly when cur.end equals next.start, otherwise emit
the current interval and continue from the next one. -/
def mergeLowAux (cur : Int × Int) : List (Int × Int) → List (Int × Int)
  | [] => [cur]
  | y :: rest =>
    if cur.2 = y.1 then mergeLowAux (cur.1, y.2) rest
    else cur :: mergeLowAux y rest

/-- Modelled from the spec (4.2 step 5): walk the sequence and fuse
consecutive LOW intervals exactly when prev.end equals next.start; nothing
else is merged. -/
def mergeLow : List (Int × Int) → List (Int × Int)
  | [] => []
  | x :: rest => mergeLowAux x rest

/-- Modelled from the spec (4.2 steps 6-7): walk the merged LOW intervals from
the cursor, emitting one HIGH window per maximal gap and interleaving the LOW
windows, ending with a HIGH window up to the horizon end when needed. -/
def complementWindows (cursor he : Int) : List (Int × Int) → List TariffWindow
  | [] => if cursor < he then [TariffWindow.mk cursor he TARIFF_HIGH] else []
  | (s, e) :: rest =>
    (if cursor < s then [TariffWindow.mk cursor s TARIFF_HIGH] else []) ++
    (TariffWindow.mk s e TARIFF_LOW :: complementWindows e he rest)

/-- No date occurs twice (duplicate dates for one signal are a build error). -/
def nodupDates : List Int → Bool
  | [] => true
  | d :: ds => !ds.contains d && nodupDates ds

/-- Modelled from the spec: parse each entry's date string, pairing it with
the entry's ranges text. -/
def parseDated : List SignalEntry → Except String (List (Int × String))
  | [] => .ok []
  | e :: es =>
    match parse_date e.date_str with
    | .error msg => .error msg
    | .ok d =>
      match parseDated es with
      | .error msg => .error msg
      | .ok rest => .ok ((d, e.times_raw) :: rest)

/-- Modelled from the spec: run the interval parser for each day in order. -/
def parseAll : List (Int × String) → Except String (List (List (Int × Int)))
  | [] => .ok []
  | p :: ps =>
    match parse_ranges p.2 p.1 with
    | .error msg => .error msg
    | .ok l =>
      match parseAll ps with
      | .error msg => .error msg
      | .ok rest => .ok (l :: rest)

/-- Date order on dated entries, used to process days ascending. -/
def dateLE (a b : Int × String) : Prop := a.1 ≤ b.1

instance : DecidableRel dateLE := fun a b => inferInstanceAs (Decidable (a.1 ≤ b.1))

instance : IsTotal (Int × String) dateLE := ⟨fun a b => Int.le_total a.1 b.1⟩

instance : IsTrans (Int × String) dateLE := ⟨fun _ _ _ h1 h2 => le_trans h1 h2⟩

/-- Start order on raw intervals, used for the global ascending concatenation. -/
def startLE (a b : Int × Int) : Prop := a.1 ≤ b.1

instance : DecidableRel startLE := fun a b => inferInstanceAs (Decidable (a.1 ≤ b.1))

instance : IsTotal (Int × Int) startLE := ⟨fun a b => Int.le_total a.1 b.1⟩

instance : IsTrans (Int × Int) startLE := ⟨fun _ _ _ h1 h2 => le_trans h1 h2⟩

/-- Modelled from the spec (4.2 steps 2-7): the per-signal build once the
dated entries are sorted ascending: reject duplicate dates, compute the
horizon from the first and last date, parse and clip each day, sort the
intervals, merge touching LOW intervals and complement with HIGH windows. -/
def build_from_sorted (signal : String) (d0 : Int × String) (rest : List (Int × String)) :
    Except String SignalSchedule :=
  if nodupDates ((d0 :: rest).map Prod.fst) then
    let hs := 86400 * d0.1
    let he := 86400 * (((d0 :: rest).getLast (List.cons_ne_nil d0 rest)).1 + 1)
    match parseAll (d0 :: rest) with
    | .error msg => .error msg
    | .ok dayIntervals =>
      let lows := List.insertionSort startLE
        ((dayIntervals.map (clipList hs he)).flatten)
      let merged := mergeLow lows
      .ok { signal := signal
            windows := complementWindows hs he merged
            horizon_start := hs
            horizon_end := he }
  else .error "duplicate date for signal"

/-- Modelled from the spec (4.2): tariffs build_schedule — validate one
signal's entries (same signal name, parseable dates), sort the days by date
ascending and run the per-signal build. -/
def build_schedule : List SignalEntry → Except String SignalSchedule
  | [] => .error "no entries for signal"
  | e0 :: es =>
    if (e0 :: es).all (fun e => e.signal == e0.signal) then
      match parseDated (e0 :: es) with
      | .error msg => .error msg
      | .ok dated =>
        match List.insertionSort dateLE dated with
        | [] => .error "no entries for signal"
        | d0 :: rest => build_from_sorted e0.signal d0 rest
    else .error "mixed signal names in one group"

/-- Modelled from the spec (4.4): tariffs.build_schedules — group the batch by
signal name, build each signal independently, keep only the successes. -/
def build_schedules (entries : List SignalEntry) : List (String × SignalSchedule) :=
  ((entries.map (fun e => e.signal)).eraseDups).filterMap (fun n =>
    match build_schedule (entries.filter (fun e => e.signal == n)) with
    | .ok sch => some (n, sch)
    | .error _ => none)

/-- service.dt_to_iso_utc helper: two-digit zero padding. -/
def pad2 (n : Int) : String :=
  if n < 10 then "0" ++ toString n else toString n

/-- Four-digit zero padding for years. -/
def pad4 (n : Int) : String :=
  if n < 10 then "000" ++ toString n
  else if n < 100 then "00" ++ toString n
  else if n < 1000 then "0" ++ toString n
  else toString n

/-- Gregorian date of a day number since 1970-01-01 (inverse of
days_from_civil, floor-division form). -/
def civil_from_days (z : Int) : Int × Int × Int :=
  let z2 := z + 719468
  let era := z2 / 146097
  let doe := z2 - era * 146097
  let yoe := (doe - doe / 1460 + doe / 36524 - doe / 146096) / 365
  let y := yoe + era * 400
  let doy := doe - (365 * yoe + yoe / 4 - yoe / 100)
  let mp := (5 * doy + 2) / 153
  let d := doy - (153 * mp + 2) / 5 + 1
  let m := if mp < 10 then mp + 3 else mp - 9
  (if m ≤ 2 then y + 1 else y, m, d)

/-- service.dt_to_iso_utc: ISO 8601 timestamp in UTC with seconds, or None
(instants are already absolute, so the timezone conversion is the identity). -/
def dt_to_iso_utc (dt : Option Int) : Option String :=
  match dt with
  | none => none
  | some t =>
    let days := t / 86400
    let secs := t - 86400 * days
    let ymd := civil_from_days days
    let hh := secs / 3600
    let mi := (secs % 3600) / 60
    let ss := secs % 60
    some (pad4 ymd.1 ++ "-" ++ pad2 ymd.2.1 ++ "-" ++ pad2 ymd.2.2 ++ "T" ++
      pad2 hh ++ ":" ++ pad2 mi ++ ":" ++ pad2 ss ++ "+00:00")

/-- service.td_to_hhmmss: format a duration (seconds) as HH:MM:SS, clamped
to be non-negative, or None. -/
def td_to_hhmmss (td : Option Int) : Option String :=
  match td with
  | none => none
  | some t =>
    let total := max t 0
    some (pad2 (total / 3600) ++ ":" ++ pad2 ((total % 3600) / 60) ++ ":" ++ pad2 (total % 60))

/-- service.td_to_seconds: duration to non-negative seconds, or None. -/
def td_to_seconds (td : Option Int) : Option Int :=
  match td with
  | none => none
  | some t => some (max t 0)

/-- service.TariffSnapshot: one computed snapshot for a single signal.
`actual_tariff` is optional because the spec leaves the current tariff
undefined outside the horizon (section 4.3 and 9). -/
structure TariffSnapshot where
  signal : String
  now : Int
  low_tariff : Bool
  actual_tariff : Option String
  actual_tariff_start : Option Int
  actual_tariff_end : Option Int
  next_low_tariff_start : Option Int
  next_low_tariff_end : Option Int
  next_high_tariff_start : Option Int
  next_high_tariff_end : Option Int
  next_switch : Option Int
  remain_actual : Option Int
deriving DecidableEq

/-- service.snapshot_to_dict output: the dict's keys as typed fields. -/
structure SnapshotDict where
  signal : String
  now : Option String
  low_tariff : Bool
  actual_tariff : Option String
  actual_tariff_start : Option String
  actual_tariff_end : Option String
  next_low_tariff_start : Option String
  next_low_tariff_end : Option String
  next_high_tariff_start : Option String
  next_high_tariff_end : Option String
  next_switch : Option String
  remain_actual : Option String
  remain_actual_seconds : Option Int
deriving DecidableEq

/-- service.snapshot_to_dict: serialize a snapshot; note the Python truthiness
test on remain_actual, under which a zero duration serializes its seconds
field as None. -/
def snapshot_to_dict (s : TariffSnapshot) : SnapshotDict :=
  { signal := s.signal
    now := dt_to_iso_utc (some s.now)
    low_tariff := s.low_tariff
    actual_tariff := s.actual_tariff
    actual_tariff_start := dt_to_iso_utc s.actual_tariff_start
    actual_tariff_end := dt_to_iso_utc s.actual_tariff_end
    next_low_tariff_start := dt_to_iso_utc s.next_low_tariff_start
    next_low_tariff_end := dt_to_iso_utc s.next_low_tariff_end
    next_high_tariff_start := dt_to_iso_utc s.next_high_tariff_start
    next_high_tariff_end := dt_to_iso_utc s.next_high_tariff_end
    next_switch := dt_to_iso_utc s.next_switch
    remain_actual := td_to_hhmmss s.remain_actual
    remain_actual_seconds :=
      match s.remain_actual with
      | none => none
      | some td => if td = 0 then none else some (max td 0) }

/-- Is the character kept verbatim by the entity-id sanitizer? -/
def goodChar (c : Char) : Bool :=
  decide ((Char.ofNat 97 ≤ c ∧ c ≤ Char.ofNat 122) ∨
    (Char.ofNat 48 ≤ c ∧ c ≤ Char.ofNat 57) ∨ c = Char.ofNat 95)

/-- Python strip(): drop whitespace at both ends of a character list. -/
def stripWs (l : List Char) : List Char :=
  ((l.dropWhile Char.isWhitespace).reverse.dropWhile Char.isWhitespace).reverse

/-- The first regex substitution of sanitize_signal_for_entity as a state
machine: replace each maximal run of characters outside a-z, 0-9, underscore
by one underscore (the flag records being inside such a run). -/
def subNonAlnumA : Bool → List Char → List Char
  | _, [] => []
  | inBad, c :: cs =>
    if goodChar c then c :: subNonAlnumA false cs
    else if inBad then subNonAlnumA true cs
    else Char.ofNat 95 :: subNonAlnumA true cs

/-- Replace each maximal run of characters outside a-z, 0-9, underscore by
one underscore. -/
def subNonAlnum (l : List Char) : List Char := subNonAlnumA false l

/-- The second regex substitution as a state machine: collapse every
underscore run to one underscore (the flag records a just-emitted one). -/
def collapseUnderscoresA : Bool → List Char → List Char
  | _, [] => []
  | inRun, c :: cs =>
    if c = Char.ofNat 95 then
      if inRun then collapseUnderscoresA true cs
      else Char.ofNat 95 :: collapseUnderscoresA true cs
    else c :: collapseUnderscoresA false cs

/-- Collapse every underscore run to one underscore. -/
def collapseUnderscores (l : List Char) : List Char := collapseUnderscoresA false l

/-- Python strip of a fixed character at both ends. -/
def stripChar (ch : Char) (l : List Char) : List Char :=
  ((l.dropWhile (fun d => d = ch)).reverse.dropWhile (fun d => d = ch)).reverse

/-- service.sanitize_signal_for_entity: strip and lowercase, replace runs of
other characters by underscores, collapse and strip underscores, and fall
back to "signal" when nothing remains. -/
def sanitize_signal_for_entity (signal : String) : String :=
  let s1 := (stripWs signal.data).map Char.toLower
  let s2 := subNonAlnum s1
  let s3 := collapseUnderscores s2
  let s4 := stripChar (Char.ofNat 95) s3
  if s4 = [] then "signal" else String.mk s4

/-- Python repr of a string, simplified to fixed single quotes. -/
def pyRepr (s : String) : String := "\x27" ++ s ++ "\x27"

/-- Python repr of a list of strings. -/
def pyListRepr : List String → String
  | [] => "[]"
  | x :: xs => "[" ++ pyRepr x ++ (xs.foldl (fun acc y => acc ++ ", " ++ pyRepr y) "") ++ "]"

/-- The KeyError message of TariffService.snapshot for an unknown signal. -/
def unknown_signal_message (signal : String) (known : List String) : String :=
  "Unknown signal " ++ pyRepr signal ++ ". Known: " ++ pyListRepr known

/-- service._next_of_type: dispatch to the next window of the given tariff. -/
def next_of_type (schedule : SignalSchedule) (tariff : String) (now : Int) :
    Option TariffWindow :=
  if tariff == TARIFF_LOW then schedule.next_nt_window now
  else schedule.next_vt_window now

/-- The mutable fields of service.TariffService. -/
structure TariffServiceState where
  schedules : List (String × SignalSchedule)
  last_response : Option SignalsResponse
  last_refresh : Option Int

/-- Python `signal in self._schedules` / `self._schedules[signal]` on the
signal-to-schedule dict. -/
def lookupSchedule (m : List (String × SignalSchedule)) (k : String) : Option SignalSchedule :=
  match m.find? (fun kv => kv.1 == k) with
  | some kv => some kv.2
  | none => none

/-- TariffService.signals: the known signal names, sorted. -/
def TariffServiceState.signals (st : TariffServiceState) : List String :=
  List.insertionSort (fun a b : String => a ≤ b) (st.schedules.map Prod.fst)

/-- TariffService.snapshot: KeyError on an unknown signal, otherwise all the
computed values for the signal at the reference instant. -/
def snapshot (st : TariffServiceState) (signal : String) (now : Int) :
    Except PyError TariffSnapshot :=
  match lookupSchedule st.schedules signal with
  | none => .error (.keyError (unknown_signal_message signal st.signals))
  | some schedule =>
    let current := schedule.current_window now
    let actual_tariff := schedule.current_tariff now
    let next_low := next_of_type schedule TARIFF_LOW now
    let next_high := next_of_type schedule TARIFF_HIGH now
    .ok { signal := signal
          now := now
          low_tariff := actual_tariff == some TARIFF_LOW
          actual_tariff := actual_tariff
          actual_tariff_start := current.map (fun w => w.start)
          actual_tariff_end := current.map (fun w => w.stop)
          next_low_tariff_start := next_low.map (fun w => w.start)
          next_low_tariff_end := next_low.map (fun w => w.stop)
          next_high_tariff_start := next_high.map (fun w => w.start)
          next_high_tariff_end := next_high.map (fun w => w.stop)
          next_switch := schedule.next_switch now
          remain_actual := schedule.remaining now }

/-- TariffService.refresh: the fetch either fails (the exception propagates
and no field is assigned) or yields a complete batch, after which the whole
schedule mapping is replaced by the freshly built one in one assignment. -/
def refresh (st : TariffServiceState) (fetched : Except PyError SignalsResponse) (now : Int) :
    TariffServiceState × Option PyError :=
  match fetched with
  | .error e => (st, some e)
  | .ok resp =>
    ({ schedules := build_schedules resp.data.signals
       last_response := some resp
       last_refresh := some now }, none)



/-- Raw intervals that do not overlap (they may touch at an endpoint). -/
def disj (a b : Int × Int) : Prop := a.2 ≤ b.1 ∨ b.2 ≤ a.1

/-- Interval a ends no later than interval b starts (gap or touch). -/
def dle (a b : Int × Int) : Prop := a.2 ≤ b.1

/-- Interval a ends strictly before interval b starts (a real gap). -/
def dlt (a b : Int × Int) : Prop := a.2 < b.1

lemma chain_stop_le_of_mem :
    ∀ (ws : List TariffWindow) (w : TariffWindow),
      List.Chain' (fun a b => a.stop = b.start) (w :: ws) →
      (∀ x ∈ w :: ws, x.start < x.stop) →
      ∀ x ∈ ws, w.stop ≤ x.start := by
  intro ws
  induction ws with
  | nil => intro w _ _ x hx; simp at hx
  | cons c t ih =>
    intro w hchain hpos x hx
    rw [List.chain'_cons] at hchain
    rcases List.mem_cons.mp hx with rfl | hx
    · exact le_of_eq hchain.1
    · have h1 := ih c hchain.2 (fun y hy => hpos y (List.mem_cons_of_mem w hy)) x hx
      have h2 : w.stop = c.start := hchain.1
      have h3 : c.start < c.stop := hpos c (by simp)
      omega

lemma chain_gap_pairwise :
    ∀ (ws : List TariffWindow),
      List.Chain' (fun a b => a.stop = b.start) ws →
      (∀ x ∈ ws, x.start < x.stop) →
      List.Pairwise (fun a b => a.stop ≤ b.start) ws := by
  intro ws
  induction ws with
  | nil => intro _ _; simp
  | cons w t ih =>
    intro hchain hpos
    rw [List.pairwise_cons]
    exact ⟨chain_stop_le_of_mem t w hchain hpos,
      ih hchain.tail (fun y hy => hpos y (List.mem_cons_of_mem w hy))⟩

lemma find?_start_min :
    ∀ (l : List TariffWindow) (p : TariffWindow → Bool) (w : TariffWindow),
      List.Pairwise (fun a b => a.start ≤ b.start) l →
      l.find? p = some w →
      ∀ x ∈ l, p x = true → w.start ≤ x.start := by
  intro l
  induction l with
  | nil => intro p w _ h; simp at h
  | cons c t ih =>
    intro p w hpair hfind x hx hpx
    by_cases hc : p c = true
    · rw [List.find?_cons_of_pos _ hc] at hfind
      have hcw := Option.some.inj hfind
      subst hcw
      rcases List.mem_cons.mp hx with rfl | hx
      · exact le_refl _
      · exact (List.pairwise_cons.mp hpair).1 x hx
    · rw [List.find?_cons_of_neg _ hc] at hfind
      rcases List.mem_cons.mp hx with rfl | hx
      · exact absurd hpx hc
      · exact ih p w (List.pairwise_cons.mp hpair).2 hfind x hx hpx

lemma nextOfKindAux_spec :
    ∀ (ws : List TariffWindow) (kind : String) (now : Int) (cw : TariffWindow),
      List.Chain' (fun a b => a.stop = b.start) ws →
      (∀ x ∈ ws, x.start < x.stop) →
      ws.find? (fun w => decide (w.start ≤ now ∧ now < w.stop)) = some cw →
      (∀ w, nextOfKindAux kind now ws = some w →
        w ∈ ws ∧ w.kind = kind ∧ cw.stop ≤ w.start ∧
        ∀ x ∈ ws, x.kind = kind → cw.stop ≤ x.start → w.start ≤ x.start) ∧
      (nextOfKindAux kind now ws = none →
        ∀ x ∈ ws, x.kind = kind → x.start < cw.stop) := by
  intro ws
  induction ws with
  | nil => intro kind now cw _ _ h; simp at h
  | cons c t ih =>
    intro kind now cw hchain hpos hfind
    by_cases hc : (c.start ≤ now ∧ now < c.stop)
    · rw [List.find?_cons_of_pos _ (by simpa using hc)] at hfind
      have hcw := Option.some.inj hfind
      subst hcw
      have hnext : nextOfKindAux kind now (c :: t) = t.find? (fun w2 => w2.kind == kind) := by
        simp [nextOfKindAux, hc]
      have hge : ∀ x ∈ t, c.stop ≤ x.start := chain_stop_le_of_mem t c hchain hpos
      constructor
      · intro w hw
        rw [hnext] at hw
        have hwmem : w ∈ t := List.mem_of_find?_eq_some hw
        have hwkind : w.kind = kind := by simpa using List.find?_some hw
        refine ⟨List.mem_cons_of_mem _ hwmem, hwkind, hge w hwmem, ?_⟩
        intro x hx hxkind hxge
        rcases List.mem_cons.mp hx with rfl | hx
        · have := hpos x (by simp)
          omega
        · have hpt : ∀ y ∈ t, y.start < y.stop := fun y hy => hpos y (List.mem_cons_of_mem c hy)
          have hpair : List.Pairwise (fun a b => a.start ≤ b.start) t := by
            refine List.Pairwise.imp_of_mem ?_ (chain_gap_pairwise t hchain.tail hpt)
            intro a b ha _ hab
            have := hpt a ha
            omega
          exact find?_start_min t _ w hpair hw x hx (by simp [hxkind])
      · intro hnone x hx hxkind
        rw [hnext] at hnone
        rcases List.mem_cons.mp hx with rfl | hx
        · exact hpos x (by simp)
        · exfalso
          have := List.find?_eq_none.mp hnone x hx
          simp [hxkind] at this
    · rw [List.find?_cons_of_neg _ (by simpa using hc)] at hfind
      have hnext : nextOfKindAux kind now (c :: t) = nextOfKindAux kind now t := by
        simp [nextOfKindAux, hc]
      have hcwmem : cw ∈ t := List.mem_of_find?_eq_some hfind
      have hcpred : cw.start ≤ now ∧ now < cw.stop := by simpa using List.find?_some hfind
      have hct : ∀ x ∈ t, c.stop ≤ x.start := chain_stop_le_of_mem t c hchain hpos
      have hpt : ∀ y ∈ t, y.start < y.stop := fun y hy => hpos y (List.mem_cons_of_mem c hy)
      have ihh := ih kind now cw hchain.tail hpt hfind
      constructor
      · intro w hw
        rw [hnext] at hw
        obtain ⟨hwmem, hwkind, hwge, hwfirst⟩ := ihh.1 w hw
        refine ⟨List.mem_cons_of_mem _ hwmem, hwkind, hwge, ?_⟩
        intro x hx hxkind hxge
        rcases List.mem_cons.mp hx with rfl | hx
        · exfalso
          have h1 : x.stop ≤ cw.start := hct cw hcwmem
          have h2 : x.start < x.stop := hpos x (by simp)
          omega
        · exact hwfirst x hx hxkind hxge
      · intro hnone x hx hxkind
        rw [hnext] at hnone
        rcases List.mem_cons.mp hx with rfl | hx
        · have h1 : x.stop ≤ cw.start := hct cw hcwmem
          have h2 : x.start < x.stop := hpos x (by simp)
          omega
        · exact ihh.2 hnone x hx hxkind

/-- C3: for every schedule satisfying the gapless and positive-width window
invariants and every instant inside the horizon (one with a containing
window), next_window_of_kind returns the first window of the requested kind
among the windows strictly after the window containing now — never the
window containing now, even when it has the requested kind — and returns
absent exactly when no such window exists before the horizon ends. -/
theorem next_window_of_kind_spec (sch : SignalSchedule) (now : Int) (kind : String)
    (cw : TariffWindow)
    (hchain : List.Chain' (fun a b => a.stop = b.start) sch.windows)
    (hpos : ∀ w ∈ sch.windows, w.start < w.stop)
    (hcur : sch.current_window now = some cw) :
    sch.next_window_of_kind now kind ≠ some cw ∧
    (∀ w, sch.next_window_of_kind now kind = some w →
      w ∈ sch.windows ∧ w.kind = kind ∧ cw.stop ≤ w.start ∧
      ∀ x ∈ sch.windows, x.kind = kind → cw.stop ≤ x.start → w.start ≤ x.start) ∧
    (sch.next_window_of_kind now kind = none →
      ∀ x ∈ sch.windows, x.kind = kind → x.start < cw.stop) := by
  have hspec := nextOfKindAux_spec sch.windows kind now cw hchain hpos hcur
  refine ⟨?_, hspec.1, hspec.2⟩
  intro heq
  obtain ⟨hmem, _, hge, _⟩ := hspec.1 cw heq
  have := hpos cw hmem
  omega

/-- Closed witness for next_window_of_kind_spec: on the one-day schedule built
from 06:00-12:00, at 10000 s the current (HIGH) window is never returned as
the next HIGH window. -/
theorem next_window_of_kind_spec_witness :
    (SignalSchedule.mk "A"
      [TariffWindow.mk 0 21600 TARIFF_HIGH, TariffWindow.mk 21600 43200 TARIFF_LOW,
       TariffWindow.mk 43200 86400 TARIFF_HIGH] 0 86400).next_window_of_kind 10000 TARIFF_HIGH ≠
      some (TariffWindow.mk 0 21600 TARIFF_HIGH) :=
  (next_window_of_kind_spec
    (SignalSchedule.mk "A"
      [TariffWindow.mk 0 21600 TARIFF_HIGH, TariffWindow.mk 21600 43200 TARIFF_LOW,
       TariffWindow.mk 43200 86400 TARIFF_HIGH] 0 86400) 10000 TARIFF_HIGH
    (TariffWindow.mk 0 21600 TARIFF_HIGH)
    (List.Chain.cons rfl (List.Chain.cons rfl List.Chain.nil)) (by decide) rfl).1

/-- C4: remaining(now) is defined exactly when next_switch(now) is defined,
equals next_switch(now) - now when defined, and is then non-negative. -/
theorem remaining_spec (sch : SignalSchedule) (now : Int) :
    ((sch.remaining now).isSome ↔ (sch.next_switch now).isSome) ∧
    (∀ t, sch.next_switch now = some t → sch.remaining now = some (t - now)) ∧
    (∀ r, sch.remaining now = some r → 0 ≤ r) := by
  cases hfind : sch.current_window now with
  | none =>
    have h1 : sch.next_switch now = none := by
      simp [SignalSchedule.next_switch, hfind]
    have h2 : sch.remaining now = none := by
      simp [SignalSchedule.remaining, h1]
    simp [h1, h2]
  | some cw =>
    have hpred : cw.start ≤ now ∧ now < cw.stop := by
      simpa using List.find?_some hfind
    have h1 : sch.next_switch now = some cw.stop := by
      simp [SignalSchedule.next_switch, hfind]
    have h2 : sch.remaining now = some (cw.stop - now) := by
      simp [SignalSchedule.remaining, h1]
    refine ⟨by simp [h1, h2], ?_, ?_⟩
    · intro t ht
      rw [h1] at ht
      have := Option.some.inj ht
      rw [h2, this]
    · intro r hr
      rw [h2] at hr
      have := Option.some.inj hr
      omega

/-- Closed witness for remaining_spec: on the one-day schedule, at 10000 s the
next switch is 21600 s and the remaining time is its difference. -/
theorem remaining_spec_witness :
    (SignalSchedule.mk "A"
      [TariffWindow.mk 0 21600 TARIFF_HIGH, TariffWindow.mk 21600 43200 TARIFF_LOW,
       TariffWindow.mk 43200 86400 TARIFF_HIGH] 0 86400).remaining 10000 =
      some (21600 - 10000) :=
  (remaining_spec
    (SignalSchedule.mk "A"
      [TariffWindow.mk 0 21600 TARIFF_HIGH, TariffWindow.mk 21600 43200 TARIFF_LOW,
       TariffWindow.mk 43200 86400 TARIFF_HIGH] 0 86400) 10000).2.1 21600 (by decide)



lemma norm_eq (v : Option String) :
    norm v = if strTrim (v.getD "") = "" then none else some (strTrim (v.getD "")) := by
  rcases v with _ | s
  · simp [norm, strTrim, trimList]
  · simp [norm]

/-- C9: build_payload strips surrounding whitespace from each identifier,
treats None and whitespace-only values as absent, fails exactly when all
three identifiers are absent after normalization, and otherwise returns
exactly the key-value pairs of the identifiers that remain. -/
theorem build_payload_spec (ean sn place : Option String) :
    ((∃ err, build_payload ean sn place = .error err) ↔
      (strTrim (ean.getD "") = "" ∧ strTrim (sn.getD "") = "" ∧ strTrim (place.getD "") = "")) ∧
    (∀ l, build_payload ean sn place = .ok l →
      l = (if strTrim (ean.getD "") = "" then [] else [(KEY_NAME_EAN, strTrim (ean.getD ""))]) ++
          (if strTrim (sn.getD "") = "" then [] else [(KEY_NAME_SN, strTrim (sn.getD ""))]) ++
          (if strTrim (place.getD "") = "" then [] else [(KEY_NAME_PLACE, strTrim (place.getD ""))])) := by
  by_cases h1 : strTrim (ean.getD "") = "" <;>
    by_cases h2 : strTrim (sn.getD "") = "" <;>
      by_cases h3 : strTrim (place.getD "") = "" <;>
        simp [build_payload, norm_eq, h1, h2, h3]

/-- Closed witness for build_payload_spec: a padded ean and a place produce
exactly the two stripped entries. -/
theorem build_payload_spec_witness :
    ([(KEY_NAME_EAN, "123"), (KEY_NAME_PLACE, "P1")] : List (String × String)) =
      (if strTrim ((some " 123 " : Option String).getD "") = "" then []
        else [(KEY_NAME_EAN, strTrim ((some " 123 " : Option String).getD ""))]) ++
      (if strTrim ((none : Option String).getD "") = "" then []
        else [(KEY_NAME_SN, strTrim ((none : Option String).getD ""))]) ++
      (if strTrim ((some "P1" : Option String).getD "") = "" then []
        else [(KEY_NAME_PLACE, strTrim ((some "P1" : Option String).getD ""))]) :=
  (build_payload_spec (some " 123 ") none (some "P1")).2
    [(KEY_NAME_EAN, "123"), (KEY_NAME_PLACE, "P1")] (by rfl)

/-- C5: refresh leaves the whole service state untouched when the fetch
fails (the error propagates), and on success replaces the stored mapping
wholesale, in a single assignment, by the schedules built from the complete
fetched batch — so a reader sees either the old complete mapping or the new
complete mapping, and each signal's schedule comes entirely from the new
batch. -/
theorem refresh_spec (st : TariffServiceState) (e : PyError) (resp : SignalsResponse)
    (now : Int) :
    refresh st (.error e) now = (st, some e) ∧
    (refresh st (.ok resp) now).1.schedules = build_schedules resp.data.signals ∧
    (refresh st (.ok resp) now).1.last_refresh = some now ∧
    (∀ sig, lookupSchedule (refresh st (.ok resp) now).1.schedules sig =
      lookupSchedule (build_schedules resp.data.signals) sig) :=
  ⟨rfl, rfl, rfl, fun _ => rfl⟩

/-- C8: serializing a snapshot whose remaining duration is exactly zero gives
the text "00:00:00" but None seconds (Python truthiness of timedelta); the
seconds field is an integer exactly when the remaining duration is present
and non-zero, and then equals the clamped non-negative seconds. -/
theorem snapshot_to_dict_remain_spec (s : TariffSnapshot) :
    (s.remain_actual = some 0 →
      (snapshot_to_dict s).remain_actual = some "00:00:00" ∧
      (snapshot_to_dict s).remain_actual_seconds = none) ∧
    ((snapshot_to_dict s).remain_actual_seconds.isSome ↔
      ∃ td, s.remain_actual = some td ∧ td ≠ 0) ∧
    (∀ td, s.remain_actual = some td → td ≠ 0 →
      (snapshot_to_dict s).remain_actual_seconds = some (max td 0)) := by
  cases h : s.remain_actual with
  | none =>
    refine ⟨?_, ?_, ?_⟩
    · intro h0; simp at h0
    · simp [snapshot_to_dict, h]
    · intro td htd; simp at htd
  | some td0 =>
    by_cases h0 : td0 = 0
    · subst h0
      refine ⟨fun _ => ⟨?_, ?_⟩, ?_, ?_⟩
      · show td_to_hhmmss s.remain_actual = some "00:00:00"
        rw [h]; rfl
      · simp [snapshot_to_dict, h]
      · simp [snapshot_to_dict, h]
      · intro td htd htd0
        cases Option.some.inj htd
        exact absurd rfl htd0
    · refine ⟨?_, ?_, ?_⟩
      · intro heq
        exact absurd (Option.some.inj heq) h0
      · simp [snapshot_to_dict, h, h0]
      · intro td htd _
        cases Option.some.inj htd
        simp [snapshot_to_dict, h, h0]

/-- Closed witness for snapshot_to_dict_remain_spec: a snapshot with zero
remaining time serializes to the "00:00:00" text and None seconds. -/
theorem snapshot_to_dict_remain_spec_witness :
    (snapshot_to_dict (TariffSnapshot.mk "A" 0 false none none none none none
        none none none (some 0))).remain_actual = some "00:00:00" ∧
    (snapshot_to_dict (TariffSnapshot.mk "A" 0 false none none none none none
        none none none (some 0))).remain_actual_seconds = none :=
  (snapshot_to_dict_remain_spec (TariffSnapshot.mk "A" 0 false none none none none none
    none none none (some 0))).1 rfl


lemma asNonemptyStr_ne (j : Option Json) (s : String)
    (h : asNonemptyStr j = some s) : s ≠ "" := by
  unfold asNonemptyStr at h
  split at h
  · split at h
    · cases h
    · rename_i hx
      cases Option.some.inj h
      exact hx
  · cases h

lemma itemFieldsOk_casy (fields : List (String × Json)) (entry : SignalEntry) (cy : String)
    (hok : itemFieldsOk fields = some entry)
    (hcasy : jsonGet fields "casy" = some (.str cy)) : cy ≠ "" := by
  unfold itemFieldsOk at hok
  cases h1 : asNonemptyStr (jsonGet fields "signal") with
  | none => rw [h1] at hok; simp at hok
  | some sg =>
    rw [h1] at hok
    cases h2 : asNonemptyStr (jsonGet fields "den") with
    | none => rw [h2] at hok; simp at hok
    | some dn =>
      rw [h2] at hok
      cases h3 : asNonemptyStr (jsonGet fields "datum") with
      | none => rw [h3] at hok; simp at hok
      | some ds =>
        rw [h3] at hok
        cases h4 : asNonemptyStr (jsonGet fields "casy") with
        | none => rw [h4] at hok; simp at hok
        | some cyv =>
          rw [hcasy] at h4
          unfold asNonemptyStr at h4
          by_cases hcy : cy = ""
          · simp [hcy] at h4
          · exact hcy

lemma parseOneItem_ok_casy (i : Nat) (item : Json) (entry : SignalEntry)
    (fields : List (String × Json)) (cy : String)
    (hok : parseOneItem i item = .ok entry) (heq : item = Json.obj fields)
    (hcasy : jsonGet fields "casy" = some (.str cy)) : cy ≠ "" := by
  subst heq
  have hred : parseOneItem i (Json.obj fields) =
      (match itemFieldsOk fields with
       | some entry => Except.ok entry
       | none => Except.error (.invalidResponseError
           ("signals[" ++ toString i ++ "] missing required string fields"))) := rfl
  rw [hred] at hok
  cases h3 : itemFieldsOk fields with
  | none => rw [h3] at hok; simp at hok
  | some e2 => exact itemFieldsOk_casy fields e2 cy h3 hcasy

lemma parseSignalItems_ok_casy :
    ∀ (items : List Json) (i : Nat) (entries : List SignalEntry)
      (fields : List (String × Json)) (cy : String),
      parseSignalItems i items = .ok entries →
      Json.obj fields ∈ items →
      jsonGet fields "casy" = some (.str cy) →
      cy ≠ "" := by
  intro items
  induction items with
  | nil =>
    intro i entries fields cy _ hmem _
    simp at hmem
  | cons item rest ih =>
    intro i entries fields cy hok hmem hcasy
    simp only [parseSignalItems] at hok
    cases h1 : parseOneItem i item with
    | error e => rw [h1] at hok; simp at hok
    | ok entry =>
      rw [h1] at hok
      cases h2 : parseSignalItems (i + 1) rest with
      | error e => rw [h2] at hok; simp at hok
      | ok tail =>
        rcases List.mem_cons.mp hmem with heq | hmem2
        · exact parseOneItem_ok_casy i item entry fields cy h1 heq.symm hcasy
        · exact ih (i + 1) tail fields cy h2 hmem2 hcasy

/-- C6 counterexample: an otherwise well-formed response whose single entry
has an empty casy string is rejected by response parsing (the claim says it
must be accepted), because the validation loop requires all four item fields
to be truthy, i.e. non-empty, strings. -/
theorem parse_response_empty_casy_counterexample :
    parse_response (.obj [("statusCode", .num 200),
      ("data", .obj [("signals", .arr [.obj [("signal", .str "PTV2"), ("den", .str "Sobota"),
        ("datum", .str "03.01.2026"), ("casy", .str "")]])])]) =
      .error (.invalidResponseError "signals[0] missing required string fields") := rfl

/-- C6 amended: the input boundary rejects raw day entries whose casy text is
the empty string: whenever the outer response shape is well-formed and some
signals item is an object whose casy field is the empty string, response
parsing fails with an error instead of yielding a SignalEntry (a blank but
non-empty casy is still accepted). -/
theorem parse_response_rejects_empty_casy (rfields dfields : List (String × Json))
    (items : List Json) (fields : List (String × Json))
    (hsc : jsonGet rfields "statusCode" = some (.num 200))
    (hdata : jsonGet rfields "data" = some (.obj dfields))
    (hsig : jsonGet dfields "signals" = some (.arr items))
    (hmem : Json.obj fields ∈ items)
    (hcasy : jsonGet fields "casy" = some (.str "")) :
    ∃ msg, parse_response (.obj rfields) = .error msg := by
  simp only [parse_response, hsc, hdata, hsig, HTTP_STATUS_OK]
  rw [if_neg (by simp)]
  cases hres : parseSignalItems 0 items with
  | error e => exact ⟨e, rfl⟩
  | ok entries =>
    exact absurd rfl (parseSignalItems_ok_casy items 0 entries fields "" hres hmem hcasy)

/-- Closed witness for parse_response_rejects_empty_casy at the concrete
single-entry response with empty casy. -/
theorem parse_response_rejects_empty_casy_witness :
    ∃ msg, parse_response (.obj [("statusCode", .num 200),
      ("data", .obj [("signals", .arr [.obj [("signal", .str "PTV2"), ("den", .str "Sobota"),
        ("datum", .str "03.01.2026"), ("casy", .str "")]])])]) = .error msg :=
  parse_response_rejects_empty_casy
    [("statusCode", .num 200),
      ("data", .obj [("signals", .arr [.obj [("signal", .str "PTV2"), ("den", .str "Sobota"),
        ("datum", .str "03.01.2026"), ("casy", .str "")]])])]
    [("signals", .arr [.obj [("signal", .str "PTV2"), ("den", .str "Sobota"),
      ("datum", .str "03.01.2026"), ("casy", .str "")]])]
    [.obj [("signal", .str "PTV2"), ("den", .str "Sobota"),
      ("datum", .str "03.01.2026"), ("casy", .str "")]]
    [("signal", .str "PTV2"), ("den", .str "Sobota"),
      ("datum", .str "03.01.2026"), ("casy", .str "")]
    rfl rfl rfl (by simp) rfl

lemma pyListRepr_len_cons (x : String) (xs : List String) :
    4 ≤ (pyListRepr (x :: xs)).length := by
  have hb : ("[" : String).length = 1 := rfl
  have he : ("]" : String).length = 1 := rfl
  have hq : ("\x27" : String).length = 1 := rfl
  simp only [pyListRepr, pyRepr, String.length_append, hb, he, hq]
  omega

lemma unknown_message_distinct (signal : String) (known : List String)
    (h : known ≠ []) :
    unknown_signal_message signal [] ≠ unknown_signal_message signal known := by
  rcases known with _ | ⟨x, xs⟩
  · exact absurd rfl h
  · intro heq
    have hlen := congrArg String.length heq
    simp only [unknown_signal_message, String.length_append] at hlen
    have h2 : (pyListRepr ([] : List String)).length = 2 := rfl
    have h4 : 4 ≤ (pyListRepr (x :: xs)).length := pyListRepr_len_cons x xs
    omega

/-- C7: querying a signal absent from the registry makes snapshot fail with a
KeyError naming the unknown signal and the sorted known-signal list, rather
than returning absent values; and the message of the not-yet-built case
(empty registry) differs from the message of every never-seen case (non-empty
known list after a successful build), so the two are reported distinctly. -/
theorem snapshot_unknown_spec (st : TariffServiceState) (signal : String) (now : Int)
    (h : lookupSchedule st.schedules signal = none) :
    snapshot st signal now =
      .error (.keyError (unknown_signal_message signal st.signals)) ∧
    (∀ known : List String, known ≠ [] →
      unknown_signal_message signal [] ≠ unknown_signal_message signal known) := by
  constructor
  · simp [snapshot, h]
  · exact fun known hk => unknown_message_distinct signal known hk

/-- Closed witness for snapshot_unknown_spec: the empty registry rejects the
signal "X" with the expected KeyError. -/
theorem snapshot_unknown_spec_witness :
    snapshot (TariffServiceState.mk [] none none) "X" 0 =
      .error (.keyError (unknown_signal_message "X"
        (TariffServiceState.mk [] none none).signals)) :=
  (snapshot_unknown_spec (TariffServiceState.mk [] none none) "X" 0 rfl).1


lemma subNonAlnumA_good :
    ∀ (l : List Char) (b : Bool), ∀ c ∈ subNonAlnumA b l, goodChar c = true := by
  intro l
  induction l with
  | nil => intro b c hc; simp [subNonAlnumA] at hc
  | cons x xs ih =>
    intro b c hc
    simp only [subNonAlnumA] at hc
    by_cases hg : goodChar x
    · rw [if_pos hg] at hc
      rcases List.mem_cons.mp hc with rfl | hc2
      · exact hg
      · exact ih false c hc2
    · rw [if_neg hg] at hc
      cases b with
      | true =>
        rw [if_pos rfl] at hc
        exact ih true c hc
      | false =>
        rw [if_neg (by simp)] at hc
        rcases List.mem_cons.mp hc with rfl | hc2
        · decide
        · exact ih true c hc2

lemma collapseUnderscoresA_good :
    ∀ (l : List Char) (b : Bool), (∀ c ∈ l, goodChar c = true) →
      ∀ c ∈ collapseUnderscoresA b l, goodChar c = true := by
  intro l
  induction l with
  | nil => intro b _ c hc; simp [collapseUnderscoresA] at hc
  | cons x xs ih =>
    intro b hl c hc
    simp only [collapseUnderscoresA] at hc
    by_cases hx : x = Char.ofNat 95
    · rw [if_pos hx] at hc
      cases b with
      | true =>
        rw [if_pos rfl] at hc
        exact ih true (fun d hd => hl d (List.mem_cons_of_mem x hd)) c hc
      | false =>
        rw [if_neg (by simp)] at hc
        rcases List.mem_cons.mp hc with rfl | hc2
        · decide
        · exact ih true (fun d hd => hl d (List.mem_cons_of_mem x hd)) c hc2
    · rw [if_neg hx] at hc
      rcases List.mem_cons.mp hc with rfl | hc2
      · exact hl _ (by simp)
      · exact ih false (fun d hd => hl d (List.mem_cons_of_mem x hd)) c hc2

lemma collapseUnderscoresA_true_head :
    ∀ (l : List Char) (c : Char),
      (collapseUnderscoresA true l).head? = some c → c ≠ Char.ofNat 95 := by
  intro l
  induction l with
  | nil => intro c hc; simp [collapseUnderscoresA] at hc
  | cons x xs ih =>
    intro c hc
    simp only [collapseUnderscoresA] at hc
    by_cases hx : x = Char.ofNat 95
    · rw [if_pos hx, if_true] at hc
      exact ih c hc
    · rw [if_neg hx, List.head?_cons] at hc
      cases Option.some.inj hc
      exact hx

lemma collapseUnderscoresA_chain :
    ∀ (l : List Char) (b : Bool),
      List.Chain' (fun a c => ¬(a = Char.ofNat 95 ∧ c = Char.ofNat 95))
        (collapseUnderscoresA b l) := by
  intro l
  induction l with
  | nil => intro b; simp [collapseUnderscoresA]
  | cons x xs ih =>
    intro b
    simp only [collapseUnderscoresA]
    by_cases hx : x = Char.ofNat 95
    · rw [if_pos hx]
      cases b with
      | true =>
        rw [if_pos rfl]
        exact ih true
      | false =>
        rw [if_neg (by simp), List.chain'_cons']
        refine ⟨?_, ih true⟩
        intro y hy hand
        exact collapseUnderscoresA_true_head xs y hy hand.2
    · rw [if_neg hx, List.chain'_cons']
      refine ⟨?_, ih false⟩
      intro y hy hand
      exact hx hand.1

lemma dropWhile_head_ne (ch : Char) (l : List Char) (c : Char)
    (h : (l.dropWhile (fun d => d = ch)).head? = some c) : c ≠ ch := by
  have hd := List.head?_dropWhile_not (fun d => d = ch) l
  rw [h] at hd
  simpa using hd

lemma stripChar_head (ch : Char) (l : List Char) (c : Char)
    (h : (stripChar ch l).head? = some c) : c ≠ ch := by
  unfold stripChar at h
  rw [List.head?_reverse] at h
  obtain ⟨t, ht⟩ :=
    List.dropWhile_suffix (l := (l.dropWhile (fun d => d = ch)).reverse) (fun d => d = ch)
  have hlast : ((l.dropWhile (fun d => d = ch)).reverse).getLast? = some c := by
    rw [← ht, List.getLast?_append, h]
    rfl
  rw [List.getLast?_reverse] at hlast
  exact dropWhile_head_ne ch l c hlast

lemma stripChar_last (ch : Char) (l : List Char) (c : Char)
    (h : (stripChar ch l).getLast? = some c) : c ≠ ch := by
  unfold stripChar at h
  rw [List.getLast?_reverse] at h
  exact dropWhile_head_ne ch _ c h

lemma stripChar_subset (ch : Char) (l : List Char) :
    ∀ c ∈ stripChar ch l, c ∈ l := by
  intro c hc
  unfold stripChar at hc
  rw [List.mem_reverse] at hc
  have h1 := (List.dropWhile_sublist _).subset hc
  rw [List.mem_reverse] at h1
  exact (List.dropWhile_sublist _).subset h1

lemma stripChar_chain (ch : Char) (l : List Char)
    (h : List.Chain' (fun a b => ¬(a = Char.ofNat 95 ∧ b = Char.ofNat 95)) l) :
    List.Chain' (fun a b => ¬(a = Char.ofNat 95 ∧ b = Char.ofNat 95)) (stripChar ch l) := by
  unfold stripChar
  rw [List.chain'_reverse]
  refine List.Chain'.suffix ?_ (List.dropWhile_suffix _)
  rw [List.chain'_reverse]
  refine List.Chain'.suffix ?_ (List.dropWhile_suffix _)
  exact h

/-- C10: sanitize_signal_for_entity always yields a non-empty identifier made
only of lowercase letters, digits and underscores, with no leading or
trailing underscore and never two consecutive underscores; an input whose
sanitized core comes out empty falls back to "signal". -/
theorem sanitize_signal_for_entity_spec (signal : String) :
    sanitize_signal_for_entity signal ≠ "" ∧
    (∀ c ∈ (sanitize_signal_for_entity signal).data, goodChar c = true) ∧
    (∀ c, (sanitize_signal_for_entity signal).data.head? = some c → c ≠ Char.ofNat 95) ∧
    (∀ c, (sanitize_signal_for_entity signal).data.getLast? = some c → c ≠ Char.ofNat 95) ∧
    List.Chain' (fun a b => ¬(a = Char.ofNat 95 ∧ b = Char.ofNat 95))
      (sanitize_signal_for_entity signal).data ∧
    (stripChar (Char.ofNat 95) (collapseUnderscores (subNonAlnum
        ((stripWs signal.data).map Char.toLower))) = [] →
      sanitize_signal_for_entity signal = "signal") := by
  have hdef : sanitize_signal_for_entity signal =
      (if stripChar (Char.ofNat 95) (collapseUnderscores (subNonAlnum
          ((stripWs signal.data).map Char.toLower))) = [] then "signal"
        else String.mk (stripChar (Char.ofNat 95) (collapseUnderscores (subNonAlnum
          ((stripWs signal.data).map Char.toLower))))) := rfl
  by_cases h4 : stripChar (Char.ofNat 95) (collapseUnderscores (subNonAlnum
      ((stripWs signal.data).map Char.toLower))) = []
  · rw [hdef, if_pos h4]
    refine ⟨by decide, by decide, ?_, ?_, ?_, fun _ => rfl⟩
    · intro c hc
      have hh : (("signal" : String).data).head? = some (Char.ofNat 115) := rfl
      rw [hh] at hc
      cases Option.some.inj hc
      decide
    · intro c hc
      have hh : (("signal" : String).data).getLast? = some (Char.ofNat 108) := rfl
      rw [hh] at hc
      cases Option.some.inj hc
      decide
    · exact List.Chain.cons (by decide) (List.Chain.cons (by decide) (List.Chain.cons
        (by decide) (List.Chain.cons (by decide) (List.Chain.cons (by decide)
          List.Chain.nil))))
  · rw [hdef, if_neg h4]
    have hg1 : ∀ c ∈ subNonAlnum ((stripWs signal.data).map Char.toLower),
        goodChar c = true :=
      fun c hc => subNonAlnumA_good _ false c hc
    have hg2 : ∀ c ∈ collapseUnderscores (subNonAlnum
        ((stripWs signal.data).map Char.toLower)), goodChar c = true :=
      fun c hc => collapseUnderscoresA_good _ false hg1 c hc
    have hchain := collapseUnderscoresA_chain
      (subNonAlnum ((stripWs signal.data).map Char.toLower)) false
    refine ⟨?_, ?_, ?_, ?_, ?_, ?_⟩
    · intro hcon
      exact h4 (congrArg String.data hcon)
    · intro c hc
      exact hg2 c (stripChar_subset _ _ c hc)
    · intro c hc
      exact stripChar_head _ _ c hc
    · intro c hc
      exact stripChar_last _ _ c hc
    · exact stripChar_chain _ _ hchain
    · intro hcore
      exact absurd hcore h4

/-- Closed witness for sanitize_signal_for_entity_spec: an all-underscore
input reduces to nothing and falls back to "signal". -/
theorem sanitize_signal_for_entity_spec_witness :
    sanitize_signal_for_entity "___" = "signal" :=
  (sanitize_signal_for_entity_spec "___").2.2.2.2.2 rfl


lemma parseHM_bounds (s : String) (t : Int) (h : parseHM s = .ok t) :
    0 ≤ t ∧ t ≤ 86400 := by
  unfold parseHM at h
  rcases hsp : strSplit s ':' with _ | ⟨a, _ | ⟨b, _ | ⟨c, rest3⟩⟩⟩ <;> rw [hsp] at h
  · simp at h
  · simp at h
  · simp only [] at h
    cases h1 : strToNat? a with
    | none => rw [h1] at h; simp at h
    | some hv =>
      rw [h1] at h
      cases h2 : strToNat? b with
      | none => rw [h2] at h; simp at h
      | some mv =>
        rw [h2] at h
        simp only [] at h
        split at h
        · rename_i hc
          cases Except.ok.inj h
          omega
        · cases h
  · simp at h

lemma parseSegment_bounds (day : Int) (seg : String) (iv : Int × Int)
    (h : parseSegment day seg = .ok iv) :
    86400 * day ≤ iv.1 ∧ iv.1 < iv.2 ∧ iv.2 ≤ 86400 * (day + 1) := by
  unfold parseSegment at h
  rcases hsp : strSplit seg '-' with _ | ⟨a, _ | ⟨b, _ | ⟨c, rest3⟩⟩⟩ <;> rw [hsp] at h
  · simp at h
  · simp at h
  · simp only [] at h
    cases h1 : parseHM a with
    | error e => rw [h1] at h; simp at h
    | ok t1 =>
      rw [h1] at h
      cases h2 : parseHM b with
      | error e => rw [h2] at h; simp at h
      | ok t2 =>
        rw [h2] at h
        simp only [] at h
        split at h
        · rename_i hc
          cases Except.ok.inj h
          obtain ⟨hb1, hb2⟩ := parseHM_bounds a t1 h1
          obtain ⟨hb3, hb4⟩ := parseHM_bounds b t2 h2
          constructor
          · simp
            omega
          constructor
          · simp
            omega
          · simp
            omega
        · cases h
  · simp at h

lemma parseSegments_bounds (day : Int) :
    ∀ (segs : List String) (l : List (Int × Int)),
      parseSegments day segs = .ok l →
      ∀ iv ∈ l, 86400 * day ≤ iv.1 ∧ iv.1 < iv.2 ∧ iv.2 ≤ 86400 * (day + 1) := by
  intro segs
  induction segs with
  | nil =>
    intro l h iv hiv
    unfold parseSegments at h
    cases Except.ok.inj h
    simp at hiv
  | cons seg rest ih =>
    intro l h iv hiv
    unfold parseSegments at h
    cases h1 : parseSegment day seg with
    | error e => rw [h1] at h; simp at h
    | ok iv0 =>
      rw [h1] at h
      cases h2 : parseSegments day rest with
      | error e => rw [h2] at h; simp at h
      | ok tail =>
        rw [h2] at h
        cases Except.ok.inj h
        rcases List.mem_cons.mp hiv with rfl | hiv2
        · exact parseSegment_bounds day seg iv h1
        · exact ih tail h2 iv hiv2

lemma parse_ranges_bounds (text : String) (day : Int) (l : List (Int × Int))
    (h : parse_ranges text day = .ok l) :
    ∀ iv ∈ l, 86400 * day ≤ iv.1 ∧ iv.1 < iv.2 ∧ iv.2 ≤ 86400 * (day + 1) := by
  unfold parse_ranges at h
  split at h
  · cases Except.ok.inj h
    intro iv hiv
    simp at hiv
  · dsimp only [] at h
    split at h
    · cases h
    · exact parseSegments_bounds day _ l h

lemma clipList_mem_bounds (hs he : Int) (l : List (Int × Int)) :
    ∀ iv ∈ clipList hs he l, hs ≤ iv.1 ∧ iv.1 < iv.2 ∧ iv.2 ≤ he := by
  intro iv hiv
  unfold clipList at hiv
  obtain ⟨a, _, ha2⟩ := List.mem_filterMap.mp hiv
  simp only [] at ha2
  split at ha2
  · rename_i hlt
    cases Option.some.inj ha2
    refine ⟨le_max_right _ _, hlt, min_le_right _ _⟩
  · cases ha2

lemma clipList_shrink (hs he : Int) (l : List (Int × Int)) :
    ∀ iv ∈ clipList hs he l, ∃ a ∈ l, a.1 ≤ iv.1 ∧ iv.2 ≤ a.2 := by
  intro iv hiv
  unfold clipList at hiv
  obtain ⟨a, ha1, ha2⟩ := List.mem_filterMap.mp hiv
  simp only [] at ha2
  split at ha2
  · cases Option.some.inj ha2
    exact ⟨a, ha1, le_max_left _ _, min_le_left _ _⟩
  · cases ha2

lemma clipList_pairwise (hs he : Int) (l : List (Int × Int))
    (h : List.Pairwise disj l) : List.Pairwise disj (clipList hs he l) := by
  unfold clipList
  rw [List.pairwise_filterMap]
  refine h.imp ?_
  intro a b hab iv1 h1 iv2 h2
  simp only [] at h1 h2
  split at h1
  · cases Option.some.inj h1
    split at h2
    · cases Option.some.inj h2
      rcases hab with hl | hr
      · exact Or.inl (le_trans (min_le_left _ _) (le_trans hl (le_max_left _ _)))
      · exact Or.inr (le_trans (min_le_left _ _) (le_trans hr (le_max_left _ _)))
    · cases h2
  · cases h1

lemma clipList_mem_of (hs he : Int) (l : List (Int × Int)) (iv : Int × Int)
    (hmem : iv ∈ l) (h1 : hs ≤ iv.1) (h2 : iv.2 ≤ he) (h3 : iv.1 < iv.2) :
    iv ∈ clipList hs he l := by
  unfold clipList
  refine List.mem_filterMap.mpr ⟨iv, hmem, ?_⟩
  simp only [max_eq_left h1, min_eq_left h2]
  rw [if_pos h3, Prod.mk.eta]

lemma parseDated_mem_bwd :
    ∀ (entries : List SignalEntry) (out : List (Int × String)),
      parseDated entries = .ok out →
      ∀ p ∈ out, ∃ e ∈ entries, parse_date e.date_str = .ok p.1 ∧ p.2 = e.times_raw := by
  intro entries
  induction entries with
  | nil =>
    intro out h p hp
    unfold parseDated at h
    cases Except.ok.inj h
    simp at hp
  | cons e es ih =>
    intro out h p hp
    unfold parseDated at h
    cases h1 : parse_date e.date_str with
    | error m => rw [h1] at h; simp at h
    | ok d =>
      rw [h1] at h
      cases h2 : parseDated es with
      | error m => rw [h2] at h; simp at h
      | ok rest =>
        rw [h2] at h
        cases Except.ok.inj h
        rcases List.mem_cons.mp hp with rfl | hp2
        · exact ⟨e, by simp, h1, rfl⟩
        · obtain ⟨e2, he2, hh⟩ := ih rest h2 p hp2
          exact ⟨e2, List.mem_cons_of_mem e he2, hh⟩

lemma parseDated_mem_fwd :
    ∀ (entries : List SignalEntry) (out : List (Int × String)),
      parseDated entries = .ok out →
      ∀ e ∈ entries, ∀ d, parse_date e.date_str = .ok d → (d, e.times_raw) ∈ out := by
  intro entries
  induction entries with
  | nil =>
    intro out _ e he
    simp at he
  | cons e0 es ih =>
    intro out h e he d hd
    unfold parseDated at h
    cases h1 : parse_date e0.date_str with
    | error m => rw [h1] at h; simp at h
    | ok d0 =>
      rw [h1] at h
      cases h2 : parseDated es with
      | error m => rw [h2] at h; simp at h
      | ok rest =>
        rw [h2] at h
        cases Except.ok.inj h
        rcases List.mem_cons.mp he with rfl | he2
        · rw [h1] at hd
          cases Except.ok.inj hd
          simp
        · exact List.mem_cons_of_mem _ (ih rest h2 e he2 d hd)

lemma parseAll_mem_bwd :
    ∀ (ps : List (Int × String)) (ls : List (List (Int × Int))),
      parseAll ps = .ok ls →
      ∀ l ∈ ls, ∃ p ∈ ps, parse_ranges p.2 p.1 = .ok l := by
  intro ps
  induction ps with
  | nil =>
    intro ls h l hl
    unfold parseAll at h
    cases Except.ok.inj h
    simp at hl
  | cons p ps2 ih =>
    intro ls h l hl
    unfold parseAll at h
    cases h1 : parse_ranges p.2 p.1 with
    | error m => rw [h1] at h; simp at h
    | ok l0 =>
      rw [h1] at h
      cases h2 : parseAll ps2 with
      | error m => rw [h2] at h; simp at h
      | ok rest =>
        rw [h2] at h
        cases Except.ok.inj h
        rcases List.mem_cons.mp hl with rfl | hl2
        · exact ⟨p, by simp, h1⟩
        · obtain ⟨q, hq, hh⟩ := ih rest h2 l hl2
          exact ⟨q, List.mem_cons_of_mem p hq, hh⟩

lemma parseAll_mem_fwd :
    ∀ (ps : List (Int × String)) (ls : List (List (Int × Int))),
      parseAll ps = .ok ls →
      ∀ p ∈ ps, ∃ l ∈ ls, parse_ranges p.2 p.1 = .ok l := by
  intro ps
  induction ps with
  | nil =>
    intro ls _ p hp
    simp at hp
  | cons p0 ps2 ih =>
    intro ls h p hp
    unfold parseAll at h
    cases h1 : parse_ranges p0.2 p0.1 with
    | error m => rw [h1] at h; simp at h
    | ok l0 =>
      rw [h1] at h
      cases h2 : parseAll ps2 with
      | error m => rw [h2] at h; simp at h
      | ok rest =>
        rw [h2] at h
        cases Except.ok.inj h
        rcases List.mem_cons.mp hp with rfl | hp2
        · exact ⟨l0, by simp, h1⟩
        · obtain ⟨l2, hl2, hh⟩ := ih rest h2 p hp2
          exact ⟨l2, List.mem_cons_of_mem l0 hl2, hh⟩


lemma fuse_chain (cur y : Int × Int) (rest : List (Int × Int))
    (h : List.Chain' dle (y :: rest)) :
    List.Chain' dle ((cur.1, y.2) :: rest) := by
  cases rest with
  | nil => simp
  | cons r rs =>
    rw [List.chain'_cons] at h ⊢
    exact ⟨h.1, h.2⟩

lemma mergeLowAux_spec (hs he : Int) :
    ∀ (l : List (Int × Int)) (cur : Int × Int),
      List.Chain' dle (cur :: l) →
      (∀ x ∈ cur :: l, hs ≤ x.1 ∧ x.1 < x.2 ∧ x.2 ≤ he) →
      List.Chain' dlt (mergeLowAux cur l) ∧
      (∀ x ∈ mergeLowAux cur l, hs ≤ x.1 ∧ x.1 < x.2 ∧ x.2 ≤ he) ∧
      (∃ z zs, mergeLowAux cur l = z :: zs ∧ z.1 = cur.1) := by
  intro l
  induction l with
  | nil =>
    intro cur _ hb
    refine ⟨by simp [mergeLowAux], ?_, cur, [], rfl, rfl⟩
    intro x hx
    simp [mergeLowAux] at hx
    subst hx
    exact hb x (by simp)
  | cons y rest ih =>
    intro cur hchain hb
    rw [List.chain'_cons] at hchain
    simp only [mergeLowAux]
    by_cases hxy : cur.2 = y.1
    · rw [if_pos hxy]
      have hcy : hs ≤ cur.1 ∧ cur.1 < cur.2 ∧ cur.2 ≤ he := hb cur (by simp)
      have hyy : hs ≤ y.1 ∧ y.1 < y.2 ∧ y.2 ≤ he := hb y (by simp)
      have hb2 : ∀ x ∈ (cur.1, y.2) :: rest, hs ≤ x.1 ∧ x.1 < x.2 ∧ x.2 ≤ he := by
        intro x hx
        rcases List.mem_cons.mp hx with rfl | hx2
        · refine ⟨by simpa using hcy.1, ?_, by simpa using hyy.2.2⟩
          simp
          omega
        · exact hb x (List.mem_cons_of_mem cur (List.mem_cons_of_mem y hx2))
      obtain ⟨c1, c2, z, zs, heq, hz⟩ := ih (cur.1, y.2) (fuse_chain cur y rest hchain.2) hb2
      exact ⟨c1, c2, z, zs, heq, hz⟩
    · rw [if_neg hxy]
      obtain ⟨c1, c2, z, zs, heq, hz⟩ :=
        ih y hchain.2 (fun x hx => hb x (List.mem_cons_of_mem cur hx))
      have hcy : hs ≤ cur.1 ∧ cur.1 < cur.2 ∧ cur.2 ≤ he := hb cur (by simp)
      refine ⟨?_, ?_, cur, mergeLowAux y rest, rfl, rfl⟩
      · rw [heq, List.chain'_cons]
        constructor
        · show cur.2 < z.1
          have h1 : cur.2 ≤ y.1 := hchain.1
          rw [hz]
          omega
        · rw [← heq]
          exact c1
      · intro x hx
        rcases List.mem_cons.mp hx with rfl | hx2
        · exact hcy
        · exact c2 x hx2

lemma mergeLowAux_cover :
    ∀ (l : List (Int × Int)) (cur : Int × Int),
      List.Chain' dle (cur :: l) →
      (∀ x ∈ cur :: l, x.1 < x.2) →
      ∀ x ∈ cur :: l, ∃ y ∈ mergeLowAux cur l, y.1 ≤ x.1 ∧ x.2 ≤ y.2 := by
  intro l
  induction l with
  | nil =>
    intro cur _ _ x hx
    rcases List.mem_cons.mp hx with rfl | hx2
    · exact ⟨x, by simp [mergeLowAux], le_refl _, le_refl _⟩
    · simp at hx2
  | cons y rest ih =>
    intro cur hchain hpos x hx
    rw [List.chain'_cons] at hchain
    simp only [mergeLowAux]
    by_cases hxy : cur.2 = y.1
    · rw [if_pos hxy]
      have hposc : cur.1 < cur.2 := hpos cur (by simp)
      have hposy : y.1 < y.2 := hpos y (by simp)
      have hpos2 : ∀ z ∈ (cur.1, y.2) :: rest, z.1 < z.2 := by
        intro z hz
        rcases List.mem_cons.mp hz with rfl | hz2
        · simp
          omega
        · exact hpos z (List.mem_cons_of_mem cur (List.mem_cons_of_mem y hz2))
      have hcov := ih (cur.1, y.2) (fuse_chain cur y rest hchain.2) hpos2
      rcases List.mem_cons.mp hx with heq | hx2
      · rw [heq]
        obtain ⟨z, hz, hz1, hz2⟩ := hcov (cur.1, y.2) (by simp)
        refine ⟨z, hz, by simpa using hz1, ?_⟩
        have h2 : y.2 ≤ z.2 := by simpa using hz2
        omega
      · rcases List.mem_cons.mp hx2 with heq2 | hx3
        · rw [heq2]
          obtain ⟨z, hz, hz1, hz2⟩ := hcov (cur.1, y.2) (by simp)
          refine ⟨z, hz, ?_, by simpa using hz2⟩
          have h1 : z.1 ≤ cur.1 := by simpa using hz1
          omega
        · exact hcov x (List.mem_cons_of_mem _ hx3)
    · rw [if_neg hxy]
      rcases List.mem_cons.mp hx with heq | hx2
      · rw [heq]
        exact ⟨cur, by simp, le_refl _, le_refl _⟩
      · obtain ⟨z, hz, h1, h2⟩ :=
          ih y hchain.2 (fun w hw => hpos w (List.mem_cons_of_mem cur hw)) x hx2
        exact ⟨z, List.mem_cons_of_mem cur hz, h1, h2⟩

lemma dlt_tail_lemma :
    ∀ (l : List (Int × Int)) (a : Int × Int),
      List.Chain' dlt (a :: l) → (∀ x ∈ a :: l, x.1 < x.2) →
      ∀ x ∈ l, a.2 < x.1 := by
  intro l
  induction l with
  | nil => intro a _ _ x hx; simp at hx
  | cons c t ih =>
    intro a hchain hpos x hx
    rw [List.chain'_cons] at hchain
    rcases List.mem_cons.mp hx with rfl | hx2
    · exact hchain.1
    · have h1 := ih c hchain.2 (fun y hy => hpos y (List.mem_cons_of_mem a hy)) x hx2
      have h2 : c.1 < c.2 := hpos c (by simp)
      have h3 : a.2 < c.1 := hchain.1
      omega

lemma chainlt_pairwise :
    ∀ (l : List (Int × Int)), List.Chain' dlt l → (∀ x ∈ l, x.1 < x.2) →
      List.Pairwise dlt l := by
  intro l
  induction l with
  | nil => intro _ _; simp
  | cons a t ih =>
    intro hchain hpos
    rw [List.pairwise_cons]
    exact ⟨dlt_tail_lemma t a hchain hpos,
      ih hchain.tail (fun y hy => hpos y (List.mem_cons_of_mem a hy))⟩


lemma complementWindows_spec :
    ∀ (l : List (Int × Int)) (cursor he : Int),
      List.Chain' dlt l →
      (∀ x ∈ l, cursor ≤ x.1 ∧ x.1 < x.2 ∧ x.2 ≤ he) →
      List.Chain' (fun a b : TariffWindow => a.stop = b.start)
        (complementWindows cursor he l) ∧
      (∀ w ∈ complementWindows cursor he l, w.start < w.stop) ∧
      List.Chain' (fun a b : TariffWindow => a.kind ≠ b.kind)
        (complementWindows cursor he l) ∧
      (∀ w, (complementWindows cursor he l).head? = some w →
        w.start = cursor ∧ ((∀ x ∈ l, cursor < x.1) → w.kind = TARIFF_HIGH)) := by
  intro l
  induction l with
  | nil =>
    intro cursor he _ _
    by_cases hc : cursor < he
    · refine ⟨by simp [complementWindows, hc], ?_, by simp [complementWindows, hc], ?_⟩
      · intro w hw
        simp [complementWindows, hc] at hw
        subst hw
        exact hc
      · intro w hw
        simp [complementWindows, hc] at hw
        subst hw
        exact ⟨rfl, fun _ => rfl⟩
    · refine ⟨by simp [complementWindows, hc], ?_, by simp [complementWindows, hc], ?_⟩
      · intro w hw
        simp [complementWindows, hc] at hw
      · intro w hw
        simp [complementWindows, hc] at hw
  | cons p rest ih =>
    intro cursor he hchain hb
    obtain ⟨s, e⟩ := p
    have hps : cursor ≤ s ∧ s < e ∧ e ≤ he := by simpa using hb (s, e) (by simp)
    have hrest_gt : ∀ x ∈ rest, e < x.1 := by
      intro x hx
      exact dlt_tail_lemma rest (s, e) hchain (fun z hz => (hb z hz).2.1) x hx
    have hbrest : ∀ x ∈ rest, e ≤ x.1 ∧ x.1 < x.2 ∧ x.2 ≤ he := by
      intro x hx
      obtain ⟨h1, h2, h3⟩ := hb x (List.mem_cons_of_mem _ hx)
      exact ⟨le_of_lt (hrest_gt x hx), h2, h3⟩
    obtain ⟨ihchain, ihpos, ihkinds, ihhead⟩ := ih e he hchain.tail hbrest
    have hjunc_gap : ∀ w ∈ (complementWindows e he rest).head?,
        (TariffWindow.mk s e TARIFF_LOW).stop = w.start := by
      intro w hw
      exact ((ihhead w hw).1).symm
    have hjunc_kind : ∀ w ∈ (complementWindows e he rest).head?,
        (TariffWindow.mk s e TARIFF_LOW).kind ≠ w.kind := by
      intro w hw
      rw [(ihhead w hw).2 hrest_gt]
      show TARIFF_LOW ≠ TARIFF_HIGH
      decide
    by_cases hc : cursor < s
    · have hout : complementWindows cursor he ((s, e) :: rest) =
          TariffWindow.mk cursor s TARIFF_HIGH ::
            TariffWindow.mk s e TARIFF_LOW :: complementWindows e he rest := by
        simp [complementWindows, hc]
      rw [hout]
      refine ⟨?_, ?_, ?_, ?_⟩
      · rw [List.chain'_cons]
        refine ⟨rfl, ?_⟩
        rw [List.chain'_cons']
        exact ⟨hjunc_gap, ihchain⟩
      · intro w hw
        rcases List.mem_cons.mp hw with heq | hw2
        · subst heq
          exact hc
        · rcases List.mem_cons.mp hw2 with heq2 | hw3
          · subst heq2
            exact hps.2.1
          · exact ihpos w hw3
      · rw [List.chain'_cons]
        constructor
        · show TARIFF_HIGH ≠ TARIFF_LOW
          decide
        · rw [List.chain'_cons']
          exact ⟨hjunc_kind, ihkinds⟩
      · intro w hw
        rw [List.head?_cons] at hw
        cases Option.some.inj hw
        exact ⟨rfl, fun _ => rfl⟩
    · have hcs : cursor = s := le_antisymm hps.1 (not_lt.mp hc)
      have hout : complementWindows cursor he ((s, e) :: rest) =
          TariffWindow.mk s e TARIFF_LOW :: complementWindows e he rest := by
        simp [complementWindows, hc]
      rw [hout]
      refine ⟨?_, ?_, ?_, ?_⟩
      · rw [List.chain'_cons']
        exact ⟨hjunc_gap, ihchain⟩
      · intro w hw
        rcases List.mem_cons.mp hw with heq | hw2
        · subst heq
          exact hps.2.1
        · exact ihpos w hw2
      · rw [List.chain'_cons']
        exact ⟨hjunc_kind, ihkinds⟩
      · intro w hw
        rw [List.head?_cons] at hw
        cases Option.some.inj hw
        refine ⟨hcs.symm, ?_⟩
        intro hstrict
        exact absurd (hstrict (s, e) (by simp)) hc

lemma complementWindows_mem_low :
    ∀ (l : List (Int × Int)) (cursor he : Int) (y : Int × Int),
      y ∈ l → TariffWindow.mk y.1 y.2 TARIFF_LOW ∈ complementWindows cursor he l := by
  intro l
  induction l with
  | nil => intro cursor he y hy; simp at hy
  | cons p rest ih =>
    intro cursor he y hy
    obtain ⟨s, e⟩ := p
    simp only [complementWindows]
    rcases List.mem_cons.mp hy with heq | hy2
    · subst heq
      exact List.mem_append_right _ (by simp)
    · exact List.mem_append_right _ (List.mem_cons_of_mem _ (ih e he y hy2))

lemma sorted_fst_le_getLast :
    ∀ (l : List (Int × String)) (hne : l ≠ []), List.Sorted dateLE l →
      ∀ p ∈ l, p.1 ≤ (l.getLast hne).1 := by
  intro l
  induction l with
  | nil => intro hne; exact absurd rfl hne
  | cons a t ih =>
    intro hne hsort p hp
    cases t with
    | nil =>
      simp at hp
      subst hp
      simp [List.getLast]
    | cons b t2 =>
      have hlast : ((a :: b :: t2).getLast hne) =
          ((b :: t2).getLast (List.cons_ne_nil b t2)) := List.getLast_cons _
      rw [hlast]
      rcases List.mem_cons.mp hp with heq | hp2
      · subst heq
        have hmem := List.getLast_mem (List.cons_ne_nil b t2)
        exact List.rel_of_sorted_cons hsort _ hmem
      · exact ih (List.cons_ne_nil b t2) (List.sorted_cons.mp hsort).2 p hp2

lemma nodupDates_pairwise :
    ∀ (l : List (Int × String)), nodupDates (l.map Prod.fst) = true →
      List.Sorted dateLE l → List.Pairwise (fun a b : Int × String => a.1 < b.1) l := by
  intro l
  induction l with
  | nil => intro _ _; simp
  | cons a t ih =>
    intro hnd hsort
    rw [List.map_cons] at hnd
    simp only [nodupDates, Bool.and_eq_true] at hnd
    obtain ⟨hnc, hrest⟩ := hnd
    rw [List.pairwise_cons]
    constructor
    · intro b hb
      have hle : a.1 ≤ b.1 := List.rel_of_sorted_cons hsort b hb
      have hne : a.1 ≠ b.1 := by
        intro heq
        have hmem : a.1 ∈ t.map Prod.fst := List.mem_map.mpr ⟨b, hb, heq.symm⟩
        have hnotmem : a.1 ∉ t.map Prod.fst := by simpa using hnc
        exact hnotmem hmem
      omega
    · exact ih hrest (List.sorted_cons.mp hsort).2


lemma build_from_sorted_ok (sg : String) (d0 : Int × String) (rest : List (Int × String))
    (sch : SignalSchedule) (h : build_from_sorted sg d0 rest = .ok sch) :
    ∃ dayIntervals : List (List (Int × Int)),
      nodupDates ((d0 :: rest).map Prod.fst) = true ∧
      parseAll (d0 :: rest) = .ok dayIntervals ∧
      sch.horizon_start = 86400 * d0.1 ∧
      sch.horizon_end = 86400 * (((d0 :: rest).getLast (List.cons_ne_nil d0 rest)).1 + 1) ∧
      sch.windows = complementWindows sch.horizon_start sch.horizon_end
        (mergeLow (List.insertionSort startLE
          ((dayIntervals.map (clipList sch.horizon_start sch.horizon_end)).flatten))) := by
  unfold build_from_sorted at h
  split at h
  · rename_i hnd
    cases hpa : parseAll (d0 :: rest) with
    | error m =>
      rw [hpa] at h
      simp at h
    | ok dayIntervals =>
      rw [hpa] at h
      simp at h
      subst h
      exact ⟨dayIntervals, hnd, rfl, rfl, rfl, rfl⟩
  · simp at h

lemma build_schedule_ok (entries : List SignalEntry) (sch : SignalSchedule)
    (h : build_schedule entries = .ok sch) :
    ∃ (sg : String) (dated : List (Int × String)) (d0 : Int × String)
      (rest : List (Int × String)),
      parseDated entries = .ok dated ∧
      List.insertionSort dateLE dated = d0 :: rest ∧
      build_from_sorted sg d0 rest = .ok sch := by
  cases entries with
  | nil =>
    simp only [build_schedule] at h
    simp at h
  | cons e0 es =>
    simp only [build_schedule] at h
    split at h
    · cases hpd : parseDated (e0 :: es) with
      | error m =>
        rw [hpd] at h
        simp at h
      | ok dated =>
        rw [hpd] at h
        simp at h
        cases hsort : List.insertionSort dateLE dated with
        | nil =>
          rw [hsort] at h
          simp at h
        | cons d0 rest =>
          rw [hsort] at h
          simp at h
          exact ⟨e0.signal, dated, d0, rest, rfl, hsort, h⟩
    · simp at h


lemma parseAll_flatten_pairwise (hs he : Int) :
    ∀ (ps : List (Int × String)) (ls : List (List (Int × Int))),
      parseAll ps = .ok ls →
      List.Pairwise (fun a b : Int × String => a.1 < b.1) ps →
      (∀ p ∈ ps, ∀ l, parse_ranges p.2 p.1 = .ok l → List.Pairwise disj l) →
      List.Pairwise disj ((ls.map (clipList hs he)).flatten) := by
  intro ps
  induction ps with
  | nil =>
    intro ls h _ _
    unfold parseAll at h
    cases Except.ok.inj h
    simp
  | cons p ps2 ih =>
    intro ls h hdates hdisj
    unfold parseAll at h
    cases h1 : parse_ranges p.2 p.1 with
    | error m => rw [h1] at h; simp at h
    | ok l0 =>
      rw [h1] at h
      cases h2 : parseAll ps2 with
      | error m => rw [h2] at h; simp at h
      | ok rest =>
        rw [h2] at h
        cases Except.ok.inj h
        rw [List.map_cons, List.flatten_cons, List.pairwise_append]
        refine ⟨clipList_pairwise hs he l0 (hdisj p (by simp) l0 h1), ?_, ?_⟩
        · exact ih rest h2 (List.pairwise_cons.mp hdates).2
            (fun q hq l hl => hdisj q (List.mem_cons_of_mem p hq) l hl)
        · intro a ha b hb
          obtain ⟨a0, ha0, ha01, ha02⟩ := clipList_shrink hs he l0 a ha
          rw [List.mem_flatten] at hb
          obtain ⟨cl, hcl, hbcl⟩ := hb
          rw [List.mem_map] at hcl
          obtain ⟨lb0, hlb0, hcleq⟩ := hcl
          rw [← hcleq] at hbcl
          obtain ⟨b0, hb0, hb01, hb02⟩ := clipList_shrink hs he lb0 b hbcl
          obtain ⟨q, hq, hql⟩ := parseAll_mem_bwd ps2 rest h2 lb0 hlb0
          have ha0b := parse_ranges_bounds p.2 p.1 l0 h1 a0 ha0
          have hb0b := parse_ranges_bounds q.2 q.1 lb0 hql b0 hb0
          have hpq : p.1 < q.1 := (List.pairwise_cons.mp hdates).1 q hq
          left
          show a.2 ≤ b.1
          omega

lemma lows_facts (hs he : Int) (ps : List (Int × String)) (ls : List (List (Int × Int)))
    (hpa : parseAll ps = .ok ls)
    (hdates : List.Pairwise (fun a b : Int × String => a.1 < b.1) ps)
    (hd : ∀ p ∈ ps, ∀ l, parse_ranges p.2 p.1 = .ok l → List.Pairwise disj l) :
    List.Chain' dle (List.insertionSort startLE ((ls.map (clipList hs he)).flatten)) ∧
    (∀ x ∈ List.insertionSort startLE ((ls.map (clipList hs he)).flatten),
      hs ≤ x.1 ∧ x.1 < x.2 ∧ x.2 ≤ he) := by
  have hperm := List.perm_insertionSort startLE ((ls.map (clipList hs he)).flatten)
  have hbounds : ∀ x ∈ List.insertionSort startLE ((ls.map (clipList hs he)).flatten),
      hs ≤ x.1 ∧ x.1 < x.2 ∧ x.2 ≤ he := by
    intro x hx
    have hx2 := hperm.mem_iff.mp hx
    rw [List.mem_flatten] at hx2
    obtain ⟨cl, hcl, hxcl⟩ := hx2
    rw [List.mem_map] at hcl
    obtain ⟨l0, _, heq⟩ := hcl
    rw [← heq] at hxcl
    exact clipList_mem_bounds hs he l0 x hxcl
  refine ⟨?_, hbounds⟩
  have hpairdisj : List.Pairwise disj
      (List.insertionSort startLE ((ls.map (clipList hs he)).flatten)) :=
    (hperm.pairwise_iff (fun hxy => Or.symm hxy)).mpr
      (parseAll_flatten_pairwise hs he ps ls hpa hdates hd)
  have hsorted : List.Pairwise startLE
      (List.insertionSort startLE ((ls.map (clipList hs he)).flatten)) :=
    List.sorted_insertionSort startLE _
  refine List.Pairwise.chain' ?_
  refine List.Pairwise.imp_of_mem ?_ (hsorted.and hpairdisj)
  intro a b ha hb hab
  obtain ⟨hle, hdisj2⟩ := hab
  have hpb := hbounds b hb
  rcases hdisj2 with hgood | hbad
  · exact hgood
  · have h1 : a.1 ≤ b.1 := hle
    show a.2 ≤ b.1
    omega

/-- C2: every successfully built schedule satisfies all three invariants at
once — windows sorted ascending by start, gapless and non-overlapping
(each window's end is the next window's start), and adjacent windows never
share a tariff kind — provided each day's declared ranges are
non-overlapping, as the data model requires of its inputs. -/
theorem build_schedule_invariants (entries : List SignalEntry) (sch : SignalSchedule)
    (hdisj : ∀ e ∈ entries, ∀ d, parse_date e.date_str = .ok d →
      ∀ l, parse_ranges e.times_raw d = .ok l → List.Pairwise disj l)
    (h : build_schedule entries = .ok sch) :
    List.Pairwise (fun a b : TariffWindow => a.start < b.start) sch.windows ∧
    List.Chain' (fun a b : TariffWindow => a.stop = b.start) sch.windows ∧
    List.Chain' (fun a b : TariffWindow => a.kind ≠ b.kind) sch.windows := by
  obtain ⟨sg, dated, d0, rest, hpd, hsort, hbs⟩ := build_schedule_ok entries sch h
  obtain ⟨dayIntervals, hnd, hpa, hhs, hhe, hwin⟩ := build_from_sorted_ok sg d0 rest sch hbs
  have hsorted : List.Sorted dateLE (d0 :: rest) := by
    rw [← hsort]
    exact List.sorted_insertionSort dateLE dated
  have hdates : List.Pairwise (fun a b : Int × String => a.1 < b.1) (d0 :: rest) :=
    nodupDates_pairwise (d0 :: rest) hnd hsorted
  have hdisj2 : ∀ p ∈ d0 :: rest, ∀ l, parse_ranges p.2 p.1 = .ok l →
      List.Pairwise disj l := by
    intro p hp l hl
    have hp2 : p ∈ dated := (List.perm_insertionSort dateLE dated).mem_iff.mp
      (by rw [hsort]; exact hp)
    obtain ⟨e, he, hed, het⟩ := parseDated_mem_bwd entries dated hpd p hp2
    refine hdisj e he p.1 hed l ?_
    rw [← het]
    exact hl
  obtain ⟨hchain, hbounds⟩ :=
    lows_facts sch.horizon_start sch.horizon_end (d0 :: rest) dayIntervals hpa hdates hdisj2
  have hmerged : List.Chain' dlt
      (mergeLow (List.insertionSort startLE
        ((dayIntervals.map (clipList sch.horizon_start sch.horizon_end)).flatten))) ∧
      ∀ x ∈ mergeLow (List.insertionSort startLE
        ((dayIntervals.map (clipList sch.horizon_start sch.horizon_end)).flatten)),
        sch.horizon_start ≤ x.1 ∧ x.1 < x.2 ∧ x.2 ≤ sch.horizon_end := by
    cases hl : List.insertionSort startLE
        ((dayIntervals.map (clipList sch.horizon_start sch.horizon_end)).flatten) with
    | nil =>
      constructor
      · simp [mergeLow]
      · intro x hx
        simp [mergeLow] at hx
    | cons x xs =>
      rw [hl] at hchain hbounds
      have hspec := mergeLowAux_spec sch.horizon_start sch.horizon_end xs x hchain hbounds
      exact ⟨by simpa [mergeLow] using hspec.1, by simpa [mergeLow] using hspec.2.1⟩
  obtain ⟨hcw1, hcw2, hcw3, _⟩ := complementWindows_spec _ sch.horizon_start sch.horizon_end
    hmerged.1 hmerged.2
  rw [hwin]
  refine ⟨?_, hcw1, hcw3⟩
  have hpair := chain_gap_pairwise _ hcw1 hcw2
  refine List.Pairwise.imp_of_mem ?_ hpair
  intro a b ha _ hab
  have := hcw2 a ha
  omega

/-- Closed witness for build_schedule_invariants on the one-entry build of
06:00-12:00 on 1970-01-01. -/
theorem build_schedule_invariants_witness :
    List.Pairwise (fun a b : TariffWindow => a.start < b.start)
      (SignalSchedule.mk "A"
        [TariffWindow.mk 0 21600 TARIFF_HIGH, TariffWindow.mk 21600 43200 TARIFF_LOW,
         TariffWindow.mk 43200 86400 TARIFF_HIGH] 0 86400).windows ∧
    List.Chain' (fun a b : TariffWindow => a.stop = b.start)
      (SignalSchedule.mk "A"
        [TariffWindow.mk 0 21600 TARIFF_HIGH, TariffWindow.mk 21600 43200 TARIFF_LOW,
         TariffWindow.mk 43200 86400 TARIFF_HIGH] 0 86400).windows ∧
    List.Chain' (fun a b : TariffWindow => a.kind ≠ b.kind)
      (SignalSchedule.mk "A"
        [TariffWindow.mk 0 21600 TARIFF_HIGH, TariffWindow.mk 21600 43200 TARIFF_LOW,
         TariffWindow.mk 43200 86400 TARIFF_HIGH] 0 86400).windows := by
  refine build_schedule_invariants [SignalEntry.mk "A" "x" "01.01.1970" "06:00-12:00"] _ ?_ rfl
  intro e he d hd l hl
  rw [List.mem_singleton] at he
  subst he
  have hd0 : parse_date (SignalEntry.mk "A" "x" "01.01.1970" "06:00-12:00").date_str =
      Except.ok 0 := rfl
  rw [hd0] at hd
  cases Except.ok.inj hd
  have hl0 : parse_ranges (SignalEntry.mk "A" "x" "01.01.1970" "06:00-12:00").times_raw 0 =
      Except.ok [(21600, 43200)] := rfl
  rw [hl0] at hl
  cases Except.ok.inj hl
  exact List.pairwise_singleton _ _


/-- C1: when one day declares a LOW range ending exactly at its midnight
boundary and the following day declares a LOW range starting exactly there,
the built schedule fuses them: it contains a single LOW window whose span
covers both ranges, from the start of the first through the end of the
second, provided the declared ranges of each day are non-overlapping as the
data model requires. -/
theorem cross_midnight_merge (entries : List SignalEntry) (sch : SignalSchedule)
    (eA eB : SignalEntry) (d s e : Int) (lA lB : List (Int × Int))
    (hdisj : ∀ x ∈ entries, ∀ d2, parse_date x.date_str = .ok d2 →
      ∀ l, parse_ranges x.times_raw d2 = .ok l → List.Pairwise disj l)
    (heA : eA ∈ entries) (hdA : parse_date eA.date_str = .ok d)
    (hrA : parse_ranges eA.times_raw d = .ok lA)
    (hmA : (s, 86400 * (d + 1)) ∈ lA)
    (heB : eB ∈ entries) (hdB : parse_date eB.date_str = .ok (d + 1))
    (hrB : parse_ranges eB.times_raw (d + 1) = .ok lB)
    (hmB : (86400 * (d + 1), e) ∈ lB)
    (h : build_schedule entries = .ok sch) :
    ∃ w ∈ sch.windows, w.kind = TARIFF_LOW ∧ w.start ≤ s ∧ e ≤ w.stop := by
  obtain ⟨sg, dated, d0, rest, hpd, hsort, hbs⟩ := build_schedule_ok entries sch h
  obtain ⟨dayIntervals, hnd, hpa, hhs, hhe, hwin⟩ := build_from_sorted_ok sg d0 rest sch hbs
  have hperm : (d0 :: rest).Perm dated := hsort ▸ List.perm_insertionSort dateLE dated
  have hsorted : List.Sorted dateLE (d0 :: rest) := by
    rw [← hsort]
    exact List.sorted_insertionSort dateLE dated
  have hmemA : (d, eA.times_raw) ∈ d0 :: rest :=
    hperm.mem_iff.mpr (parseDated_mem_fwd entries dated hpd eA heA d hdA)
  have hmemB : (d + 1, eB.times_raw) ∈ d0 :: rest :=
    hperm.mem_iff.mpr (parseDated_mem_fwd entries dated hpd eB heB (d + 1) hdB)
  obtain ⟨lA2, hlA2, hrA2⟩ :=
    parseAll_mem_fwd (d0 :: rest) dayIntervals hpa (d, eA.times_raw) hmemA
  have hrA2s : parse_ranges eA.times_raw d = .ok lA2 := hrA2
  rw [hrA] at hrA2s
  cases Except.ok.inj hrA2s
  obtain ⟨lB2, hlB2, hrB2⟩ :=
    parseAll_mem_fwd (d0 :: rest) dayIntervals hpa (d + 1, eB.times_raw) hmemB
  have hrB2s : parse_ranges eB.times_raw (d + 1) = .ok lB2 := hrB2
  rw [hrB] at hrB2s
  cases Except.ok.inj hrB2s
  have hbA : 86400 * d ≤ s ∧ s < 86400 * (d + 1) ∧ 86400 * (d + 1) ≤ 86400 * (d + 1) :=
    parse_ranges_bounds eA.times_raw d lA hrA (s, 86400 * (d + 1)) hmA
  have hbB : 86400 * (d + 1) ≤ 86400 * (d + 1) ∧ 86400 * (d + 1) < e ∧
      e ≤ 86400 * ((d + 1) + 1) :=
    parse_ranges_bounds eB.times_raw (d + 1) lB hrB (86400 * (d + 1), e) hmB
  have hd0 : d0.1 ≤ d := by
    rcases List.mem_cons.mp hmemA with heq | hmem2
    · rw [← heq]
    · have := (List.pairwise_cons.mp hsorted).1 _ hmem2
      simpa [dateLE] using this
  have hlastB : d + 1 ≤ ((d0 :: rest).getLast (List.cons_ne_nil d0 rest)).1 :=
    sorted_fst_le_getLast (d0 :: rest) (List.cons_ne_nil d0 rest) hsorted _ hmemB
  have hclipA : (s, 86400 * (d + 1)) ∈ clipList sch.horizon_start sch.horizon_end lA := by
    refine clipList_mem_of _ _ lA _ hmA ?_ ?_ ?_
    · show sch.horizon_start ≤ s
      rw [hhs]
      omega
    · show 86400 * (d + 1) ≤ sch.horizon_end
      rw [hhe]
      omega
    · show s < 86400 * (d + 1)
      omega
  have hclipB : (86400 * (d + 1), e) ∈ clipList sch.horizon_start sch.horizon_end lB := by
    refine clipList_mem_of _ _ lB _ hmB ?_ ?_ ?_
    · show sch.horizon_start ≤ 86400 * (d + 1)
      rw [hhs]
      omega
    · show e ≤ sch.horizon_end
      rw [hhe]
      omega
    · show 86400 * (d + 1) < e
      omega
  have hflatA : (s, 86400 * (d + 1)) ∈
      ((dayIntervals.map (clipList sch.horizon_start sch.horizon_end)).flatten) := by
    rw [List.mem_flatten]
    exact ⟨clipList sch.horizon_start sch.horizon_end lA,
      List.mem_map_of_mem _ hlA2, hclipA⟩
  have hflatB : (86400 * (d + 1), e) ∈
      ((dayIntervals.map (clipList sch.horizon_start sch.horizon_end)).flatten) := by
    rw [List.mem_flatten]
    exact ⟨clipList sch.horizon_start sch.horizon_end lB,
      List.mem_map_of_mem _ hlB2, hclipB⟩
  have hlowA := (List.perm_insertionSort startLE _).mem_iff.mpr hflatA
  have hlowB := (List.perm_insertionSort startLE _).mem_iff.mpr hflatB
  have hdates : List.Pairwise (fun a b : Int × String => a.1 < b.1) (d0 :: rest) :=
    nodupDates_pairwise (d0 :: rest) hnd hsorted
  have hdisj2 : ∀ p ∈ d0 :: rest, ∀ l, parse_ranges p.2 p.1 = .ok l →
      List.Pairwise disj l := by
    intro p hp l hl
    have hp2 : p ∈ dated := hperm.mem_iff.mp hp
    obtain ⟨x, hx, hxd, hxt⟩ := parseDated_mem_bwd entries dated hpd p hp2
    refine hdisj x hx p.1 hxd l ?_
    rw [← hxt]
    exact hl
  obtain ⟨hchain, hbounds⟩ :=
    lows_facts sch.horizon_start sch.horizon_end (d0 :: rest) dayIntervals hpa hdates hdisj2
  cases hl : List.insertionSort startLE
      ((dayIntervals.map (clipList sch.horizon_start sch.horizon_end)).flatten) with
  | nil =>
    rw [hl] at hlowA
    simp at hlowA
  | cons z zs =>
    rw [hl] at hchain hbounds hlowA hlowB
    have hpos : ∀ x ∈ z :: zs, x.1 < x.2 := fun x hx => ((hbounds x hx).2).1
    obtain ⟨yA, hyA, hyA1, hyA2⟩ := mergeLowAux_cover zs z hchain hpos _ hlowA
    obtain ⟨yB, hyB, hyB1, hyB2⟩ := mergeLowAux_cover zs z hchain hpos _ hlowB
    have hyA1s : yA.1 ≤ s := hyA1
    have hyA2s : 86400 * (d + 1) ≤ yA.2 := hyA2
    have hyB1s : yB.1 ≤ 86400 * (d + 1) := hyB1
    have hyB2s : e ≤ yB.2 := hyB2
    obtain ⟨hmchain, hmbounds, _⟩ :=
      mergeLowAux_spec sch.horizon_start sch.horizon_end zs z hchain hbounds
    have hmpos : ∀ x ∈ mergeLowAux z zs, x.1 < x.2 := fun x hx => ((hmbounds x hx).2).1
    have hmpair := chainlt_pairwise _ hmchain hmpos
    have hsym : List.Pairwise (fun a b : Int × Int => dlt a b ∨ dlt b a)
        (mergeLowAux z zs) := hmpair.imp (fun h2 => Or.inl h2)
    have hyeq : yA = yB := by
      by_contra hne
      have h2 := hsym.forall (fun a b hab => Or.symm hab) hyA hyB hne
      rcases h2 with hlt | hlt <;>
        · unfold dlt at hlt
          omega
    subst hyeq
    refine ⟨TariffWindow.mk yA.1 yA.2 TARIFF_LOW, ?_, rfl, hyA1s, hyB2s⟩
    rw [hwin, hl]
    have hml : mergeLow (z :: zs) = mergeLowAux z zs := rfl
    rw [hml]
    exact complementWindows_mem_low (mergeLowAux z zs) sch.horizon_start sch.horizon_end
      yA hyA

/-- Closed witness for cross_midnight_merge: 18:00-24:00 on 1970-01-01
followed by 00:00-06:00 on 1970-01-02 yields one merged LOW window covering
64800 through 108000. -/
theorem cross_midnight_merge_witness :
    ∃ w ∈ (SignalSchedule.mk "A"
      [TariffWindow.mk 0 64800 TARIFF_HIGH, TariffWindow.mk 64800 108000 TARIFF_LOW,
       TariffWindow.mk 108000 172800 TARIFF_HIGH] 0 172800).windows,
      w.kind = TARIFF_LOW ∧ w.start ≤ (64800 : Int) ∧ (108000 : Int) ≤ w.stop := by
  have hdisj : ∀ x ∈ [SignalEntry.mk "A" "x" "01.01.1970" "18:00-24:00",
      SignalEntry.mk "A" "y" "02.01.1970" "00:00-06:00"], ∀ d2,
      parse_date x.date_str = .ok d2 →
      ∀ l, parse_ranges x.times_raw d2 = .ok l → List.Pairwise disj l := by
    intro x hx d2 hd2 l hl
    rcases List.mem_cons.mp hx with heq | hx2
    · subst heq
      have hd0 : parse_date (SignalEntry.mk "A" "x" "01.01.1970" "18:00-24:00").date_str =
          Except.ok 0 := rfl
      rw [hd0] at hd2
      cases Except.ok.inj hd2
      have hl0 : parse_ranges
          (SignalEntry.mk "A" "x" "01.01.1970" "18:00-24:00").times_raw 0 =
          Except.ok [(64800, 86400)] := rfl
      rw [hl0] at hl
      cases Except.ok.inj hl
      exact List.pairwise_singleton _ _
    · rw [List.mem_singleton] at hx2
      subst hx2
      have hd1 : parse_date (SignalEntry.mk "A" "y" "02.01.1970" "00:00-06:00").date_str =
          Except.ok 1 := rfl
      rw [hd1] at hd2
      cases Except.ok.inj hd2
      have hl1 : parse_ranges
          (SignalEntry.mk "A" "y" "02.01.1970" "00:00-06:00").times_raw 1 =
          Except.ok [(86400, 108000)] := rfl
      rw [hl1] at hl
      cases Except.ok.inj hl
      exact List.pairwise_singleton _ _
  exact cross_midnight_merge
    [SignalEntry.mk "A" "x" "01.01.1970" "18:00-24:00",
     SignalEntry.mk "A" "y" "02.01.1970" "00:00-06:00"] _
    (SignalEntry.mk "A" "x" "01.01.1970" "18:00-24:00")
    (SignalEntry.mk "A" "y" "02.01.1970" "00:00-06:00")
    0 64800 108000 [(64800, 86400)] [(86400, 108000)]
    hdisj (List.mem_cons_self _ _) rfl rfl (by simp)
    (List.mem_cons_of_mem _ (List.mem_cons_self _ _)) rfl rfl (by simp) rfl

end CezHdo
